import Mathlib

/-!  Verification development for the CoCo DSK/JVC filesystem tool.

Shallow embedding of `coco_dsk.py` (DECB volume engine),
`coco_detokenizer.py` (BASIC detokenizer) and `coco_dsk_os9.py`
(OS-9 RBF reader).  Byte buffers are represented as `List Nat`
(each element a byte value 0..255 as produced by Python `bytes`
indexing); Python `str` values are represented as `List Nat` of
Unicode code points where the character content matters, or as
Lean `String` for final detokenizer output.  Fallible Python code
(raising exceptions) is modelled with `Option` / explicit result
types.  Loops whose termination is not structural are modelled
with an explicit fuel argument chosen at the call site to dominate
the loop's iteration count. -/

set_option maxRecDepth 8000

namespace CoCoDSK

/-- JVC disk image header (`JVCHeader` dataclass in `coco_dsk.py`). -/
structure JVCHeader where
  sectorsPerTrack : Nat := 18
  sideCount : Nat := 1
  sectorSize : Nat := 256
  firstSectorId : Nat := 1
  sectorAttr : Nat := 0
  headerSize : Nat := 0
  deriving Repr, DecidableEq

/-- DECB directory entry (`DirectoryEntry` dataclass); the `filename` and
`extension` fields hold the code points of the decoded Python strings. -/
structure DirectoryEntry where
  filename : List Nat
  extension : List Nat
  fileType : Nat
  asciiFlag : Nat
  firstGranule : Nat
  lastSectorBytes : Nat
  deriving Repr, DecidableEq

/-- In-memory state of a `DSKImage` object: the raw image buffer plus the
mounted FAT and directory caches (`self.data`, `self.fat`,
`self.directory`). -/
structure DSKImage where
  header : JVCHeader
  data : List Nat
  fat : List Nat
  directory : List DirectoryEntry
  deriving Repr, DecidableEq

/-- `DSKImage._get_sector_offset`: byte offset of a (track, sector) pair;
sectors are numbered from 1 as in the source. -/
def getSectorOffset (img : DSKImage) (track sector : Nat) : Nat :=
  img.header.headerSize + (track * img.header.sectorsPerTrack + (sector - 1)) * 256

/-- `DSKImage.read_sector`: Python's `self.data[offset:offset+256]` slice —
returns up to 256 bytes, silently truncated (possibly empty) when the
offset reaches beyond the buffer. -/
def readSector (img : DSKImage) (track sector : Nat) : List Nat :=
  (img.data.drop (getSectorOffset img track sector)).take 256

/-- `DSKImage.write_sector`: raises `ValueError` (modelled as `none`) unless
the payload is exactly 256 bytes, then performs Python's bytearray slice
assignment `data[offset:offset+256] = payload`, which splices the payload
in at the (clamped) offset and can grow the buffer. -/
def writeSector (img : DSKImage) (track sector : Nat) (payload : List Nat) :
    Option DSKImage :=
  if payload.length = 256 then
    let off := getSectorOffset img track sector
    some { img with data := img.data.take off ++ payload ++ img.data.drop (off + 256) }
  else
    none

/-- Length of the result of `read_sector`: the slice is truncated to the
available bytes. -/
theorem readSector_length (img : DSKImage) (track sector : Nat) :
    (readSector img track sector).length =
      min 256 (img.data.length - getSectorOffset img track sector) := by
  simp [readSector, Nat.min_comm]

/-- Length of the buffer after `write_sector`: the splice keeps the bytes
before the (clamped) offset, the 256 payload bytes, and the bytes after
`offset + 256`; when the offset reaches beyond the buffer this grows the
buffer rather than failing. -/
theorem writeSector_length (img : DSKImage) (track sector : Nat)
    (payload : List Nat) (hlen : payload.length = 256) :
    ∃ img', writeSector img track sector payload = some img' ∧
      img'.data.length =
        min (getSectorOffset img track sector) img.data.length + 256 +
          (img.data.length - (getSectorOffset img track sector + 256)) := by
  simp only [writeSector, hlen, if_pos]
  refine ⟨_, rfl, ?_⟩
  simp only [List.length_append, List.length_take, List.length_drop, hlen]

/-- A concrete one-sector image (no JVC header, default geometry) used as
counterexample input for out-of-range sector I/O. -/
def tinyImage : DSKImage :=
  { header := {}, data := List.replicate 256 0, fat := [], directory := [] }

/-- C6 counterexample: track 0 sector 3 of `tinyImage` has computed offset
512, beyond the 256-byte buffer, yet `read_sector` returns a truncated
(empty) slice and `write_sector` succeeds and grows the buffer to 512
bytes — neither fails with an `OutOfRange` error as the claim states. -/
theorem sectorIO_returns_truncated_and_grows :
    readSector tinyImage 0 3 = [] ∧
      (writeSector tinyImage 0 3 (List.replicate 256 1)).map
        (fun img => img.data.length) = some 512 := by
  constructor
  · decide
  · decide

/-- C6 (amended): when the computed sector offset exceeds the buffer
length, `read_sector` returns the truncated (here empty) slice and
`write_sector` splices the 256 payload bytes at the end, growing the
buffer by 256 bytes; no `OutOfRange` error exists in the code. -/
theorem sectorIO_out_of_range_read_write (img : DSKImage) (track sector : Nat)
    (payload : List Nat) (hpay : payload.length = 256)
    (hoff : img.data.length < getSectorOffset img track sector) :
    readSector img track sector = [] ∧
      ∃ img', writeSector img track sector payload = some img' ∧
        img'.data.length = img.data.length + 256 := by
  refine ⟨?_, ?_⟩
  · have : img.data.drop (getSectorOffset img track sector) = [] :=
      List.drop_eq_nil_of_le (by omega)
    simp [readSector, this]
  · obtain ⟨img', h1, h2⟩ := writeSector_length img track sector payload hpay
    exact ⟨img', h1, by omega⟩

/-- Closed witness for `sectorIO_out_of_range_read_write` at `tinyImage`,
track 0, sector 3. -/
theorem sectorIO_out_of_range_read_write_witness :
    readSector tinyImage 0 3 = [] ∧
      ∃ img', writeSector tinyImage 0 3 (List.replicate 256 1) = some img' ∧
        img'.data.length = tinyImage.data.length + 256 :=
  sectorIO_out_of_range_read_write tinyImage 0 3 (List.replicate 256 1)
    (by decide) (by decide)

/-! ## Granule chains (`DSKImage._get_granule_chain`) -/

/-- `DSKImage._get_granule_chain`, with an explicit fuel bound on the
number of `while` iterations.  `none` means the loop is still running
after `fuel` iterations (the source loop has no iteration bound and can
run forever), or that `self.fat[current]` would raise an IndexError —
the latter is impossible for 68-byte FATs, where every index followed is
in 0..67.  A terminal entry `0xC0..0xC9` yields `(granule, entry & 0x0F)`
(0 read as 9); an entry `≤ 67` continues the chain; anything else stops
the walk without yielding. -/
def getGranuleChainFuel (fat : List Nat) : Nat → Nat → Option (List (Nat × Nat))
  | 0, _ => none
  | fuel + 1, cur =>
    if cur = 255 then some []
    else
      match fat.get? cur with
      | none => none
      | some entry =>
        if 192 ≤ entry ∧ entry ≤ 201 then
          let su := Nat.land entry 15
          some [(cur, if su = 0 then 9 else su)]
        else if entry ≤ 67 then
          (getGranuleChainFuel fat fuel entry).map (fun rest => (cur, 9) :: rest)
        else
          some []

/-- The chain walk terminates, returning a finite chain list. -/
def chainWalkTerminates (fat : List Nat) (start : Nat) : Prop :=
  ∃ fuel chain, getGranuleChainFuel fat fuel start = some chain

theorem chainWalk_selfloop_none :
    ∀ fuel, getGranuleChainFuel (List.replicate 68 0) fuel 0 = none
  | 0 => rfl
  | fuel + 1 => by
      have ih := chainWalk_selfloop_none fuel
      have hstep : getGranuleChainFuel (List.replicate 68 0) (fuel + 1) 0 =
          (getGranuleChainFuel (List.replicate 68 0) fuel 0).map
            (fun rest => (0, 9) :: rest) := rfl
      rw [hstep, ih]
      rfl

/-- C7 counterexample: the all-zero 68-byte FAT makes granule 0 point to
itself (a conforming continuation entry), so the chain walk from granule 0
never terminates — refuting the claim that every 68-byte FAT content gives
a terminating walk. -/
theorem granuleChain_cycle_diverges :
    ¬ chainWalkTerminates (List.replicate 68 0) 0 := by
  rintro ⟨fuel, chain, h⟩
  rw [chainWalk_selfloop_none fuel] at h
  exact Option.noConfusion h

theorem chainWalk_forward_aux (fat : List Nat) (hlen : fat.length = 68)
    (hfwd : ∀ g, g < 68 → fat.getD g 0 ≤ 67 → g < fat.getD g 0) :
    ∀ fuel cur, cur < 68 → 68 - cur < fuel →
      ∃ chain, getGranuleChainFuel fat fuel cur = some chain := by
  intro fuel
  induction fuel with
  | zero => intro cur _ h; omega
  | succ fuel ih =>
    intro cur hcur hfuel
    have hcl : cur < fat.length := by omega
    have hget : fat.get? cur = some (fat.getD cur 0) := by
      rw [List.getD_eq_getElem fat 0 hcl, List.get?_eq_get hcl]
      simp
    simp only [getGranuleChainFuel, hget]
    have hne : ¬ cur = 255 := by omega
    rw [if_neg hne]
    by_cases hterm : 192 ≤ fat.getD cur 0 ∧ fat.getD cur 0 ≤ 201
    · rw [if_pos hterm]; exact ⟨_, rfl⟩
    · rw [if_neg hterm]
      by_cases hcont : fat.getD cur 0 ≤ 67
      · rw [if_pos hcont]
        have hlt := hfwd cur hcur hcont
        obtain ⟨chain, hc⟩ := ih (fat.getD cur 0) (by omega) (by omega)
        exact ⟨_, by rw [hc]; rfl⟩
      · rw [if_neg hcont]; exact ⟨_, rfl⟩

/-- C7 (amended): the chain walk terminates for every 68-byte FAT whose
continuation entries (values ≤ 67) all point to a strictly larger granule
— a condition ensuring the pointer chain cannot cycle — from every start
granule in 0..67; a FAT with a pointer cycle (e.g. all zeros) makes the
walk run forever. -/
theorem granuleChain_forward_fat_terminates (fat : List Nat)
    (hlen : fat.length = 68)
    (hfwd : ∀ g, g < 68 → fat.getD g 0 ≤ 67 → g < fat.getD g 0)
    (start : Nat) (hstart : start < 68) :
    chainWalkTerminates fat start := by
  obtain ⟨chain, hc⟩ := chainWalk_forward_aux fat hlen hfwd 69 start hstart (by omega)
  exact ⟨69, chain, hc⟩

/-- Closed witness for `granuleChain_forward_fat_terminates` on the
freshly-formatted all-free FAT, start granule 0. -/
theorem granuleChain_forward_fat_terminates_witness :
    chainWalkTerminates (List.replicate 68 255) 0 :=
  granuleChain_forward_fat_terminates (List.replicate 68 255) (by decide)
    (by decide) 0 (by decide)

end CoCoDSK

namespace CoCoDetok

/-- The token string for the shorthand-comment keyword (a single
apostrophe character, code point 39). -/
def apostropheTok : String := String.singleton (Char.ofNat 39)

/-- Primary token table `TOKENS` from `coco_detokenizer.py`. -/
def TOKENS : Nat → Option String
  | 128 => some "FOR"
  | 129 => some "GO"
  | 130 => some "REM"
  | 131 => some apostropheTok
  | 132 => some "ELSE"
  | 133 => some "IF"
  | 134 => some "DATA"
  | 135 => some "PRINT"
  | 136 => some "ON"
  | 137 => some "INPUT"
  | 138 => some "END"
  | 139 => some "NEXT"
  | 140 => some "DIM"
  | 141 => some "READ"
  | 142 => some "RUN"
  | 143 => some "RESTORE"
  | 144 => some "RETURN"
  | 145 => some "STOP"
  | 146 => some "POKE"
  | 147 => some "CONT"
  | 148 => some "LIST"
  | 149 => some "CLEAR"
  | 150 => some "NEW"
  | 151 => some "CLOAD"
  | 152 => some "CSAVE"
  | 153 => some "OPEN"
  | 154 => some "CLOSE"
  | 155 => some "LLIST"
  | 156 => some "SET"
  | 157 => some "RESET"
  | 158 => some "CLS"
  | 159 => some "MOTOR"
  | 160 => some "SOUND"
  | 161 => some "AUDIO"
  | 162 => some "EXEC"
  | 163 => some "SKIPF"
  | 164 => some "TAB("
  | 165 => some "TO"
  | 166 => some "SUB"
  | 167 => some "THEN"
  | 168 => some "NOT"
  | 169 => some "STEP"
  | 170 => some "OFF"
  | 171 => some "+"
  | 172 => some "-"
  | 173 => some "*"
  | 174 => some "/"
  | 175 => some "^"
  | 176 => some "AND"
  | 177 => some "OR"
  | 178 => some ">"
  | 179 => some "="
  | 180 => some "<"
  | 181 => some "DEL"
  | 182 => some "EDIT"
  | 183 => some "TRON"
  | 184 => some "TROFF"
  | 185 => some "DEF"
  | 186 => some "LET"
  | 187 => some "LINE"
  | 188 => some "PCLS"
  | 189 => some "PSET"
  | 190 => some "PRESET"
  | 191 => some "SCREEN"
  | 192 => some "PCLEAR"
  | 193 => some "COLOR"
  | 194 => some "CIRCLE"
  | 195 => some "PAINT"
  | 196 => some "GET"
  | 197 => some "PUT"
  | 198 => some "DRAW"
  | 199 => some "PCOPY"
  | 200 => some "PMODE"
  | 201 => some "PLAY"
  | 202 => some "DLOAD"
  | 203 => some "RENUM"
  | 204 => some "FN"
  | 205 => some "USING"
  | 206 => some "DIR"
  | 207 => some "DRIVE"
  | 208 => some "FIELD"
  | 209 => some "FILES"
  | 210 => some "KILL"
  | 211 => some "LOAD"
  | 212 => some "LSET"
  | 213 => some "MERGE"
  | 214 => some "RENAME"
  | 215 => some "RSET"
  | 216 => some "SAVE"
  | 217 => some "WRITE"
  | 218 => some "VERIFY"
  | 219 => some "UNLOAD"
  | 220 => some "DSKINI"
  | 221 => some "BACKUP"
  | 222 => some "COPY"
  | 223 => some "DSKI$"
  | 224 => some "DSKO$"
  | 226 => some "WIDTH"
  | 227 => some "PALETTE"
  | 228 => some "HSCREEN"
  | 230 => some "HCLS"
  | 231 => some "HCOLOR"
  | 232 => some "HPAINT"
  | 233 => some "HCIRCLE"
  | 234 => some "HLINE"
  | 235 => some "HGET"
  | 236 => some "HPUT"
  | 237 => some "HBUFF"
  | 238 => some "HPRINT"
  | 239 => some "ERR"
  | 240 => some "BRK"
  | 243 => some "HSET"
  | 244 => some "HRESET"
  | 245 => some "HDRAW"
  | 246 => some "CMP"
  | 247 => some "RGB"
  | 248 => some "ATTR"
  | _ => none

/-- Extended-function token table `TOKENS_EXT`. -/
def TOKENS_EXT : Nat → Option String
  | 128 => some "SGN"
  | 129 => some "INT"
  | 130 => some "ABS"
  | 131 => some "USR"
  | 132 => some "RND"
  | 133 => some "SIN"
  | 134 => some "PEEK"
  | 135 => some "LEN"
  | 136 => some "STR$"
  | 137 => some "VAL"
  | 138 => some "ASC"
  | 139 => some "CHR$"
  | 140 => some "EOF"
  | 141 => some "JOYSTK"
  | 142 => some "LEFT$"
  | 143 => some "RIGHT$"
  | 144 => some "MID$"
  | 145 => some "POINT"
  | 146 => some "INKEY$"
  | 147 => some "MEM"
  | 148 => some "ATN"
  | 149 => some "COS"
  | 150 => some "TAN"
  | 151 => some "EXP"
  | 152 => some "FIX"
  | 153 => some "LOG"
  | 154 => some "POS"
  | 155 => some "SQR"
  | 156 => some "HEX$"
  | 157 => some "VARPTR"
  | 158 => some "INSTR"
  | 159 => some "TIMER"
  | 160 => some "PPOINT"
  | 161 => some "STRING$"
  | 162 => some "CVN"
  | 163 => some "FREE"
  | 164 => some "LOC"
  | 165 => some "LOF"
  | 166 => some "MKN$"
  | 167 => some "AS"
  | 168 => some "LPEEK"
  | 169 => some "BUTTON"
  | 170 => some "HPOINT"
  | 171 => some "ERNO"
  | 172 => some "ERLIN"
  | _ => none

/-- Python `bytes.decode('latin1')`: each byte becomes the character with
the same code point. -/
def latin1 (l : List Nat) : String := String.mk (l.map Char.ofNat)

/-- The two-character placeholder glyph the source appends for
non-printable bytes (the literal is taken verbatim from the source). -/
def unknownGlyph : String := "¬ø"

/-- The placeholder emitted for an extended token missing from
`TOKENS_EXT` (the source's f-string with literal braces). -/
def extMissTok (e : Nat) : String := "\x7b255-" ++ toString e ++ "\x7d"

/-- Body of `detokenize_line`: the per-byte loop, producing the list of
appended strings.  `inStr` is the `in_string` flag. -/
def detokenizeLineGo : List Nat → Bool → List String
  | [], _ => []
  | b :: rest, inStr =>
    if b = 0 then []
    else if inStr = false ∧ b = 255 then
      match rest with
      | [] => []
      | e :: rest2 =>
        (match TOKENS_EXT e with
         | some t => t
         | none => extMissTok e) :: detokenizeLineGo rest2 inStr
    else if inStr = false ∧ (TOKENS b).isSome then
      let t := (TOKENS b).getD ""
      if t = "REM" ∨ t = apostropheTok then [t, latin1 rest]
      else t :: detokenizeLineGo rest inStr
    else if 32 ≤ b ∧ b ≤ 126 then
      String.singleton (Char.ofNat b) ::
        detokenizeLineGo rest (if b = 34 then !inStr else inStr)
    else
      unknownGlyph :: detokenizeLineGo rest inStr

/-- `detokenize_line`: join of the appended pieces. -/
def detokenizeLine (lineBytes : List Nat) : String :=
  String.join (detokenizeLineGo lineBytes false)

/-- `read_word_be`: 16-bit big-endian word at `off`; every call site in
the source is guarded so the reads are in range (the `getD` default is
never used there). -/
def readWordBe (data : List Nat) (off : Nat) : Nat :=
  data.getD off 0 * 256 + data.getD (off + 1) 0

/-- Index of the first zero byte of a list, if any. -/
def firstZeroIdx : List Nat → Option Nat
  | [] => none
  | b :: rest => if b = 0 then some 0 else (firstZeroIdx rest).map (· + 1)

/-- `data.index(0, start)` with the `ValueError` fallback to `len(data)`:
index of the first zero byte at position ≥ `start`, or `data.length`. -/
def findZero (data : List Nat) (start : Nat) : Nat :=
  match firstZeroIdx (data.drop start) with
  | some i => start + i
  | none => data.length

/-- The `while True` line loop of `detokenize_file`, with a fuel bound on
the iteration count; every iteration advances `offset` by at least 3, so
`data.length + 1` fuel (used by `detokenizeFile`) always suffices. -/
def detokLoopF (data : List Nat) : Nat → Nat → Bool → List String
  | 0, _, _ => []
  | fuel + 1, offset, firstLine =>
    if data.length < offset + 2 then []
    else if firstLine then
      let lineNumber := readWordBe data offset
      if lineNumber = 0 then []
      else
        let start := offset + 2
        let zeroPos := findZero data start
        (toString lineNumber ++ " " ++
          detokenizeLine ((data.drop start).take (zeroPos - start))) ::
          detokLoopF data fuel (zeroPos + 1) false
    else if data.length < offset + 4 then []
    else
      let nextLine := readWordBe data offset
      let lineNumber := readWordBe data (offset + 2)
      if nextLine = 0 then []
      else if lineNumber = 0 then []
      else
        let start := offset + 4
        let zeroPos := findZero data start
        (toString lineNumber ++ " " ++
          detokenizeLine ((data.drop start).take (zeroPos - start))) ::
          detokLoopF data fuel (zeroPos + 1) false

/-- `detokenize_file` on an in-memory byte slice.  The unguarded
`data[0]` check of the 0xFF preamble raises `IndexError` on empty input,
modelled as `none`. -/
def detokenizeFile (data : List Nat) : Option String :=
  match data with
  | [] => none
  | b :: _ =>
    some (String.intercalate "\x0a"
      (detokLoopF data (data.length + 1) (if b = 255 then 5 else 0) true))

/-- The parse the claim describes for inputs without the 0xFF preamble:
enter the line loop at offset 0 reading a 2-byte next-line address, then
a 2-byte line number, then the body (i.e. with the first-line flag off). -/
def detokenizeFileLinkedFirst (data : List Nat) : String :=
  String.intercalate "\x0a" (detokLoopF data (data.length + 1) 0 false)

theorem take_firstZeroIdx (l : List Nat) :
    l.take ((firstZeroIdx l).getD l.length) = l.takeWhile (fun v => !(v == 0)) := by
  induction l with
  | nil => rfl
  | cons a t ih =>
    by_cases ha : a = 0
    · subst ha
      simp [firstZeroIdx, List.takeWhile_cons]
    · have hba : (a == 0) = false := by simp [ha]
      rw [List.takeWhile_cons, hba]
      simp only [firstZeroIdx, if_neg ha, Bool.not_false, if_true]
      cases h : firstZeroIdx t with
      | none =>
        rw [h] at ih
        rw [show (Option.none : Option Nat).getD t.length = t.length from rfl,
          List.take_length] at ih
        rw [show (Option.map (fun x => x + 1) (Option.none : Option Nat)).getD
            ((a :: t).length) = (a :: t).length from rfl,
          List.take_length, ← ih]
      | some i =>
        rw [h] at ih
        rw [show (Option.some i).getD t.length = i from rfl] at ih
        rw [show (Option.map (fun x => x + 1) (Option.some i)).getD
            ((a :: t).length) = i + 1 from rfl,
          List.take_succ_cons, ih]

/-- The body slice `data[start:findZero data start]` is the longest
zero-free prefix of `data[start:]`. -/
theorem findZero_take (data : List Nat) (start : Nat) (h : start ≤ data.length) :
    (data.drop start).take (findZero data start - start) =
      (data.drop start).takeWhile (fun v => !(v == 0)) := by
  rw [← take_firstZeroIdx]
  cases hf : firstZeroIdx (data.drop start) with
  | none =>
    have h1 : findZero data start = data.length := by unfold findZero; rw [hf]
    rw [h1]
    rw [show (Option.none : Option Nat).getD (data.drop start).length =
      (data.drop start).length from rfl]
    congr 1
    simp only [List.length_drop]
  | some i =>
    have h1 : findZero data start = start + i := by unfold findZero; rw [hf]
    rw [h1]
    rw [show (Option.some i).getD (data.drop start).length = i from rfl]
    congr 1
    omega

/-- C3 counterexample: on the input `[0x00, 0x0A, 0x41, 0x00]`, whose
first byte is not 0xFF, the code still parses the first line link-free
(line number 10, body "A"); the claimed parse — a 2-byte next-line
address, then a 2-byte line number, then the body — would instead yield
line 16640 with an empty body. -/
theorem detok_first_line_counterexample :
    detokenizeFile [0, 10, 65, 0] = some "10 A" ∧
      detokenizeFileLinkedFirst [0, 10, 65, 0] = "16640 " ∧
      detokenizeFile [0, 10, 65, 0] ≠
        some (detokenizeFileLinkedFirst [0, 10, 65, 0]) := by
  refine ⟨by decide, by decide, by decide⟩

/-- C3 (amended): the link-free first-line parse is applied to the first
loop iteration unconditionally, not only after a 0xFF preamble: for every
input whose first byte is not 0xFF (and that is long enough with a
nonzero leading word), the first output line is built from the 2-byte
big-endian line number at offset 0 followed by the body from offset 2 up
to the first 0x00, and the remaining lines are parsed with a next-line
address. -/
theorem detok_first_line_link_free (b : Nat) (rest : List Nat)
    (hb : b ≠ 255) (hlen : 2 ≤ (b :: rest).length)
    (hln : readWordBe (b :: rest) 0 ≠ 0) :
    detokenizeFile (b :: rest) = some (String.intercalate "\x0a"
      ((toString (readWordBe (b :: rest) 0) ++ " " ++
        detokenizeLine (((b :: rest).drop 2).takeWhile (fun v => !(v == 0)))) ::
        detokLoopF (b :: rest) ((b :: rest).length)
          (findZero (b :: rest) 2 + 1) false)) := by
  show some _ = some _
  rw [if_neg hb]
  congr 2
  have hlen2 : ¬ ((b :: rest).length < 0 + 2) := by omega
  show detokLoopF (b :: rest) ((b :: rest).length + 1) 0 true = _
  rw [detokLoopF, if_neg hlen2, if_pos rfl, if_neg hln]
  dsimp only
  rw [show (0 : Nat) + 2 = 2 from rfl]
  rw [findZero_take (b :: rest) 2 hlen]

/-- Closed witness for `detok_first_line_link_free` at the concrete
input `[0, 10, 65, 0]`. -/
theorem detok_first_line_link_free_witness :
    detokenizeFile [0, 10, 65, 0] = some (String.intercalate "\x0a"
      ((toString (readWordBe [0, 10, 65, 0] 0) ++ " " ++
        detokenizeLine (([0, 10, 65, 0].drop 2).takeWhile (fun v => !(v == 0)))) ::
        detokLoopF [0, 10, 65, 0] ([0, 10, 65, 0].length)
          (findZero [0, 10, 65, 0] 2 + 1) false)) :=
  detok_first_line_link_free 0 [10, 65, 0] (by decide) (by decide) (by decide)

/-- C10 counterexample: `detokenize_file` applied to the empty byte slice
fails (the unguarded `data[0]` preamble check raises `IndexError`,
modelled as `none`), refuting the claim that every input, including the
empty slice, yields a string. -/
theorem detok_empty_input_fails : detokenizeFile [] = none := rfl

/-- C10 (amended): `detokenize_file` returns a string for every
*nonempty* input byte slice; the empty slice makes the unguarded first
byte check fail. -/
theorem detok_total_on_nonempty (data : List Nat) (h : data ≠ []) :
    ∃ s, detokenizeFile data = some s := by
  cases data with
  | nil => exact absurd rfl h
  | cons b rest => exact ⟨_, rfl⟩

/-- Closed witness for `detok_total_on_nonempty` at `[0]`. -/
theorem detok_total_on_nonempty_witness : ∃ s, detokenizeFile [0] = some s :=
  detok_total_on_nonempty [0] (by decide)

end CoCoDetok

namespace CoCoOS9

/-- OS-9 file descriptor (`OS9FileDescriptor` dataclass); the date tuples
are lists of raw bytes. -/
structure OS9FileDescriptor where
  fdAtt : Nat := 0
  fdOwn : Nat := 0
  fdDat : List Nat := []
  fdLnk : Nat := 0
  fdSiz : Nat := 0
  fdDcr : List Nat := []
  fdSeg : List (Nat × Nat) := []
  deriving Repr, DecidableEq

/-- The identification-sector fields of `OS9DiskDescriptor` that sector
addressing depends on; `_read_lsn` and `_read_file_data` consult only
`dd_tot`. -/
structure OS9DiskDescriptor where
  ddTot : Nat := 0
  deriving Repr, DecidableEq

/-- In-memory state of an `OS9Image`: raw buffer plus parsed descriptor. -/
structure OS9Image where
  data : List Nat
  descriptor : OS9DiskDescriptor
  deriving Repr, DecidableEq

/-- `OS9Image._read_lsn`: raises `ValueError` (modelled as `none`) when
`lsn ≥ dd_tot`, else returns the 256-byte slice at `lsn * 256` (silently
truncated if the buffer is short). -/
def readLsn (img : OS9Image) (lsn : Nat) : Option (List Nat) :=
  if lsn < img.descriptor.ddTot then
    some ((img.data.drop (lsn * 256)).take 256)
  else
    none

/-- The inner loop of `_read_file_data` for one segment: read sectors
`lsn, lsn+1, …, lsn+count-1` and concatenate them. -/
def readSegment (img : OS9Image) : Nat → Nat → Option (List Nat)
  | _, 0 => some []
  | lsn, count + 1 =>
    match readLsn img lsn with
    | none => none
    | some sec => (readSegment img (lsn + 1) count).map (fun rest => sec ++ rest)

/-- The outer loop of `_read_file_data`: concatenate all segments'
sectors in order. -/
def readSegments (img : OS9Image) : List (Nat × Nat) → Option (List Nat)
  | [] => some []
  | (lsn, count) :: rest =>
    match readSegment img lsn count with
    | none => none
    | some seg => (readSegments img rest).map (fun tail => seg ++ tail)

/-- `OS9Image._read_file_data`: concatenation of the segment sectors,
truncated to `fd_siz` only when `fd_siz > 0` (the guard in the source). -/
def readFileData (img : OS9Image) (fd : OS9FileDescriptor) : Option (List Nat) :=
  (readSegments img fd.fdSeg).map (fun fileData =>
    if 0 < fd.fdSiz then fileData.take fd.fdSiz else fileData)

/-- Total sector count over a segment list. -/
def segSectorCount (segs : List (Nat × Nat)) : Nat :=
  (segs.map (fun p => p.2)).sum

/-- Concrete two-sector OS-9 image for counterexamples and witnesses. -/
def os9Tiny : OS9Image :=
  { data := List.replicate 512 7, descriptor := { ddTot := 2 } }

/-- A descriptor with `fd_siz = 0` but a nonempty one-sector segment list. -/
def os9FdSizZero : OS9FileDescriptor := { fdSiz := 0, fdSeg := [(0, 1)] }

/-- C8 counterexample: for a descriptor with `fd_siz = 0` and one
single-sector segment, `_read_file_data` returns all 256 segment bytes —
not `min(fd_siz, 256·count) = 0` bytes as the claim states, because the
truncation is guarded by `fd_siz > 0`. -/
theorem os9_fdsiz_zero_counterexample :
    (readFileData os9Tiny os9FdSizZero).map List.length = some 256 ∧
      (readFileData os9Tiny os9FdSizZero).map List.length ≠
        some (min os9FdSizZero.fdSiz (256 * segSectorCount os9FdSizZero.fdSeg)) := by
  refine ⟨by decide, by decide⟩

theorem readSegment_length (img : OS9Image)
    (hdata : img.descriptor.ddTot * 256 ≤ img.data.length) :
    ∀ count lsn, lsn + count ≤ img.descriptor.ddTot →
      ∃ l, readSegment img lsn count = some l ∧ l.length = 256 * count := by
  intro count
  induction count with
  | zero => intro lsn _; exact ⟨[], rfl, rfl⟩
  | succ n ih =>
    intro lsn hle
    have hlsn : lsn < img.descriptor.ddTot := by omega
    obtain ⟨l, hl, hlen⟩ := ih (lsn + 1) (by omega)
    refine ⟨(img.data.drop (lsn * 256)).take 256 ++ l, ?_, ?_⟩
    · rw [readSegment, readLsn, if_pos hlsn, hl]
      rfl
    · have h1 : ((img.data.drop (lsn * 256)).take 256).length = 256 := by
        simp only [List.length_take, List.length_drop]
        have : (lsn + 1) * 256 ≤ img.descriptor.ddTot * 256 :=
          Nat.mul_le_mul_right 256 hlsn
        omega
      simp only [List.length_append, h1, hlen]
      ring

theorem readSegments_length (img : OS9Image)
    (hdata : img.descriptor.ddTot * 256 ≤ img.data.length) :
    ∀ segs : List (Nat × Nat),
      (∀ p ∈ segs, p.1 + p.2 ≤ img.descriptor.ddTot) →
      ∃ l, readSegments img segs = some l ∧ l.length = 256 * segSectorCount segs := by
  intro segs
  induction segs with
  | nil => intro _; exact ⟨[], rfl, rfl⟩
  | cons p rest ih =>
    intro hall
    obtain ⟨lsn, count⟩ := p
    obtain ⟨seg, hseg, hseglen⟩ :=
      readSegment_length img hdata count lsn (hall (lsn, count) (by simp))
    obtain ⟨tail, htail, htaillen⟩ := ih (fun q hq => hall q (by simp [hq]))
    refine ⟨seg ++ tail, ?_, ?_⟩
    · rw [readSegments, hseg, htail]
      rfl
    · simp only [List.length_append, hseglen, htaillen, segSectorCount,
        List.map_cons, List.sum_cons]
      ring

/-- C8 (amended): when every segment lies within `dd_tot` sectors and the
buffer covers the whole disk, `_read_file_data` returns the concatenation
of the segments' sectors truncated to `fd_siz` bytes *when `fd_siz > 0`*,
so its length is `min(fd_siz, 256·count)` in that case; a descriptor with
`fd_siz = 0` skips the truncation and yields all `256·count` segment
bytes, not 0 bytes. -/
theorem os9_readFileData_length (img : OS9Image) (fd : OS9FileDescriptor)
    (hdata : img.descriptor.ddTot * 256 ≤ img.data.length)
    (hseg : ∀ p ∈ fd.fdSeg, p.1 + p.2 ≤ img.descriptor.ddTot) :
    ∃ l, readFileData img fd = some l ∧
      l.length = if 0 < fd.fdSiz
        then min fd.fdSiz (256 * segSectorCount fd.fdSeg)
        else 256 * segSectorCount fd.fdSeg := by
  obtain ⟨raw, hraw, hrawlen⟩ := readSegments_length img hdata fd.fdSeg hseg
  by_cases hsiz : 0 < fd.fdSiz
  · refine ⟨raw.take fd.fdSiz, ?_, ?_⟩
    · rw [readFileData, hraw]
      simp [hsiz]
    · simp [List.length_take, hrawlen, if_pos hsiz]
  · refine ⟨raw, ?_, ?_⟩
    · rw [readFileData, hraw]
      simp [hsiz]
    · simp [if_neg hsiz, hrawlen]

/-- Closed witness for `os9_readFileData_length`: a 5-byte descriptor over
one sector yields 5 bytes. -/
theorem os9_readFileData_length_witness :
    ∃ l, readFileData os9Tiny { fdSiz := 5, fdSeg := [(0, 1)] } = some l ∧
      l.length = if 0 < (5 : Nat)
        then min 5 (256 * segSectorCount [(0, 1)])
        else 256 * segSectorCount [(0, 1)] :=
  os9_readFileData_length os9Tiny { fdSiz := 5, fdSeg := [(0, 1)] }
    (by decide) (by decide)

end CoCoOS9

namespace CoCoDSK

/-! ## DECB directory and FAT scans -/

/-- Index of the first occurrence of `v` in a list, if any. -/
def firstIdxOf (v : Nat) : List Nat → Option Nat
  | [] => none
  | b :: rest => if b = v then some 0 else (firstIdxOf v rest).map (· + 1)

/-- Python `str.rstrip()` on byte/code-point lists: drop trailing
whitespace characters (space, tab, LF, VT, FF, CR). -/
def pyRstrip (l : List Nat) : List Nat :=
  (l.reverse.dropWhile (fun c =>
    c = 32 ∨ c = 9 ∨ c = 10 ∨ c = 11 ∨ c = 12 ∨ c = 13)).reverse

/-- Python `bytes.decode('ascii', errors='ignore')`: bytes ≥ 0x80 are
dropped, the rest become characters with the same code. -/
def decodeAsciiIgnore (l : List Nat) : List Nat := l.filter (fun b => b < 128)

/-- `DSKImage._parse_directory_entry`: `None` unless the slot is exactly
32 bytes and the first granule is ≤ 67. -/
def parseDirectoryEntry (entry : List Nat) : Option DirectoryEntry :=
  if entry.length = 32 then
    let filename := pyRstrip (decodeAsciiIgnore (entry.take 8))
    let extension := pyRstrip (decodeAsciiIgnore ((entry.drop 8).take 3))
    let fileType := entry.getD 11 0
    let asciiFlag := entry.getD 12 0
    let firstGranule := entry.getD 13 0
    let lastSectorBytes := entry.getD 14 0 * 256 + entry.getD 15 0
    if 67 < firstGranule then none
    else some ⟨filename, extension, fileType, asciiFlag, firstGranule, lastSectorBytes⟩
  else none

/-- Slots of one directory sector (`_read_directory`'s inner loop): the
first byte of each 32-byte slot decides whether the slot is parsed;
reading it from a short sector raises `IndexError` (`none`). -/
def scanSlots (sectorData : List Nat) : List Nat → Option (List DirectoryEntry)
  | [] => some []
  | i :: is =>
    match (sectorData.drop (i * 32)).take 32 with
    | [] => none
    | b :: tail =>
      if b ≠ 0 ∧ b ≠ 255 then
        match parseDirectoryEntry (b :: tail) with
        | some e => (scanSlots sectorData is).map (fun rest => e :: rest)
        | none => scanSlots sectorData is
      else scanSlots sectorData is

/-- `_read_directory`'s outer loop over directory sectors. -/
def readDirSectors (img : DSKImage) : List Nat → Option (List DirectoryEntry)
  | [] => some []
  | sec :: rest =>
    match scanSlots (readSector img 17 sec) (List.range 8) with
    | none => none
    | some es => (readDirSectors img rest).map (fun tail => es ++ tail)

/-- `DSKImage._read_directory`: entries of track 17 sectors 3..11 in slot
order. -/
def readDirectory (img : DSKImage) : Option (List DirectoryEntry) :=
  readDirSectors img (List.range' 3 9)

/-- `DSKImage._find_free_granules`: indices of FAT bytes equal to 0xFF in
ascending order; the Python loop appends and then breaks once the list
has reached `count` entries (so `count = 0` still collects the first free
granule). -/
def findFreeGranulesGo : List Nat → Nat → Nat → List Nat
  | [], _, _ => []
  | e :: rest, i, need =>
    if e = 255 then
      if need ≤ 1 then [i]
      else i :: findFreeGranulesGo rest (i + 1) (need - 1)
    else findFreeGranulesGo rest (i + 1) need

def findFreeGranules (fat : List Nat) (count : Nat) : List Nat :=
  findFreeGranulesGo fat 0 count

/-- One directory sector's slot scan of `_find_free_directory_slot`:
`none` is the `IndexError` on a short sector, `some none` no free slot,
`some (some off)` the byte offset of the first free slot. -/
def findSlotInSector (sectorData : List Nat) : List Nat → Option (Option Nat)
  | [] => some none
  | i :: is =>
    match sectorData.get? (i * 32) with
    | none => none
    | some b =>
      if b = 0 ∨ b = 255 then some (some (i * 32))
      else findSlotInSector sectorData is

/-- `DSKImage._find_free_directory_slot` over the given sector numbers. -/
def findFreeDirectorySlot (img : DSKImage) : List Nat → Option (Option (Nat × Nat))
  | [] => some none
  | sec :: rest =>
    match findSlotInSector (readSector img 17 sec) (List.range 8) with
    | none => none
    | some (some off) => some (some (sec, off))
    | some none => findFreeDirectorySlot img rest

/-- `DSKImage._granule_to_track_sector`: track `g / 2` (skipping the
directory track 17 for granules ≥ 34) and start sector `g % 2 * 9 + 1`. -/
def granuleToTrackSector (granule : Nat) : Nat × Nat :=
  (if granule < 34 then granule / 2 else granule / 2 + 1, granule % 2 * 9 + 1)

/-- Number of FAT bytes equal to 0xFF (`sum(1 for g in fat if g == 0xFF)`
in `list_files`, and the free count of the claims). -/
def freeCount (fat : List Nat) : Nat := fat.countP (fun v => v = 255)

/-! ## Upload (`DSKImage.upload_from_pc`) -/

/-- ASCII model of Python `str.upper()` (the source applies it to the
8.3 names in play, which are ASCII; non-ASCII names fail the later
`encode('ascii')` in every path a theorem below uses). -/
def pyUpperChar (c : Nat) : Nat := if 97 ≤ c ∧ c ≤ 122 then c - 32 else c

/-- `dsk_filename.rsplit('.', 1)` when a dot is present, else
`(name, "")`. -/
def rsplitDot (nm : List Nat) : List Nat × List Nat :=
  match firstIdxOf 46 nm.reverse with
  | none => (nm, [])
  | some k => (nm.take (nm.length - 1 - k), nm.drop (nm.length - k))

/-- `s[:n].ljust(n)`: truncate to `n` characters and pad with spaces. -/
def ljustPad (l : List Nat) (n : Nat) : List Nat :=
  l.take n ++ List.replicate (n - (l.take n).length) 32

/-- The padded chunk written for one sector:
`file_data[off:off+256].ljust(256, b'\x00')`. -/
def chunkPad (fileData : List Nat) (off : Nat) : List Nat :=
  let chunk := (fileData.drop off).take 256
  chunk ++ List.replicate (256 - chunk.length) 0

/-- The inner `for s in range(sectors_to_write)` loop of
`upload_from_pc`: write consecutive sectors from `sector0`, advancing
`data_offset` by each chunk's length.  `none` is a `write_sector`
`ValueError` (unreachable here: every payload is exactly 256 bytes). -/
def writeSectorsFrom :
    DSKImage → Nat → Nat → List Nat → Nat → Nat → Option (DSKImage × Nat)
  | img, _, _, _, off, 0 => some (img, off)
  | img, track, sector0, fileData, off, count + 1 =>
    let chunk := (fileData.drop off).take 256
    match writeSector img track sector0 (chunk ++ List.replicate (256 - chunk.length) 0) with
    | none => none
    | some img' =>
      writeSectorsFrom img' track (sector0 + 1) fileData (off + chunk.length) count

/-- The outer `for i, granule_num in enumerate(free_granules)` loop:
write each granule's sectors, then update the in-memory FAT — a pointer
to the next granule, or the terminal marker `0xC0 | sectors_to_write`
(the source's `last_sector_size` conditional picks `sectors_to_write` in
both branches). -/
def writeGranules : DSKImage → List Nat → List Nat → Nat → Option (DSKImage × Nat)
  | img, _, [], off => some (img, off)
  | img, fileData, g :: rest, off =>
    let ts := granuleToTrackSector g
    let remaining := fileData.length - off
    let sectorsToWrite := min 9 ((remaining + 255) / 256)
    match writeSectorsFrom img ts.1 ts.2 fileData off sectorsToWrite with
    | none => none
    | some (img', off') =>
      let img2 :=
        match rest with
        | g2 :: _ => { img' with fat := img'.fat.set g g2 }
        | [] => { img' with fat := img'.fat.set g (Nat.lor 192 sectorsToWrite) }
      writeGranules img2 fileData rest off'

/-- Upload failure kinds: `outOfSpace` and `dirFull` are the two guarded
returns; `exc` is any Python exception caught by the surrounding
`try`/`except` (non-ASCII name, indexing an empty granule list, a bad
sector write, a crash while re-reading the directory). -/
inductive UploadErr
  | outOfSpace
  | dirFull
  | exc
  deriving Repr, DecidableEq

/-- Result of `upload_from_pc`: `ok` maps to the Python `return True`
path; `err` carries the state at the point the failure is reported
(`upload_from_pc` mutates `self` in place, so a late exception leaves
earlier writes behind). -/
inductive UploadResult
  | ok (s : DSKImage)
  | err (e : UploadErr) (s : DSKImage)
  deriving Repr, DecidableEq

/-- `DSKImage.upload_from_pc`.  `fileData` is the PC file's bytes;
`dskFilename` the optional caller-supplied name (code points);
`pcBasename` the upper-cased fallback source (`os.path.basename`);
`fileType` and `asciiFlag` the directory-entry bytes. -/
def uploadFromPc (img : DSKImage) (fileData : List Nat)
    (dskFilename : Option (List Nat)) (pcBasename : List Nat)
    (fileType asciiFlag : Nat) : UploadResult :=
  let nm := match dskFilename with
    | none => pcBasename.map pyUpperChar
    | some l => if l = [] then pcBasename.map pyUpperChar else l
  let parts := rsplitDot nm
  let name := ljustPad parts.1 8
  let ext := ljustPad parts.2 3
  let granulesNeeded := (fileData.length + 2304 - 1) / 2304
  let freeGranules := findFreeGranules img.fat granulesNeeded
  if freeGranules.length < granulesNeeded then .err .outOfSpace img
  else
    match findFreeDirectorySlot img (List.range' 3 9) with
    | none => .err .exc img
    | some none => .err .dirFull img
    | some (some slot) =>
      match writeGranules img fileData freeGranules 0 with
      | none => .err .exc img
      | some (img1, _) =>
        let lastSectorBytes :=
          if fileData.length % 256 = 0 ∧ 0 < fileData.length then 256
          else fileData.length % 256
        if ¬ name.all (fun c => c < 128) then .err .exc img1
        else if ¬ ext.all (fun c => c < 128) then .err .exc img1
        else if 256 ≤ fileType then .err .exc img1
        else if 256 ≤ asciiFlag then .err .exc img1
        else
          match freeGranules with
          | [] => .err .exc img1
          | g0 :: _ =>
            let entryData := name ++ ext ++
              [fileType, asciiFlag, g0, lastSectorBytes / 256, lastSectorBytes % 256] ++
              List.replicate 16 255
            let dirSector := readSector img1 17 slot.1
            let newDirSector :=
              dirSector.take slot.2 ++ entryData ++ dirSector.drop (slot.2 + 32)
            match writeSector img1 17 slot.1 newDirSector with
            | none => .err .exc img1
            | some img2 =>
              if ¬ img2.fat.all (fun v => v < 256) then .err .exc img2
              else
                let fatSector := readSector img2 17 2
                match writeSector img2 17 2 (img2.fat ++ fatSector.drop 68) with
                | none => .err .exc img2
                | some img3 =>
                  match readDirectory img3 with
                  | none => .err .exc img3
                  | some dir => .ok { img3 with directory := dir }

/-! ## Extract (`DSKImage.extract_file`) -/

/-- Read `su` consecutive sectors of one granule. -/
def readGranule (img : DSKImage) (granule su : Nat) : List Nat :=
  let ts := granuleToTrackSector granule
  (List.range su).foldl (fun acc i => acc ++ readSector img ts.1 (ts.2 + i)) []

/-- The final trim of `extract_file`: Python's
`file_data[:(len//256 - 1)*256 + last_sector_bytes]`, including the
negative-slice semantics when the accumulated data is shorter than one
sector. -/
def trimExtract (fileData : List Nat) (lsb : Nat) : List Nat :=
  if 0 < lsb ∧ 0 < fileData.length then
    let actual : Int := ((fileData.length : Int) / 256 - 1) * 256 + lsb
    if actual < 0 then fileData.take ((fileData.length + actual).toNat)
    else fileData.take actual.toNat
  else fileData

/-- `DSKImage.extract_file`: walk the granule chain (69 units of fuel
reproduce every terminating run of the source loop, since a terminating
walk cannot revisit a granule and the FAT has 68 entries), concatenate
the chain's sectors, and trim.  `none` means the source would hang (or
index past the FAT). -/
def extractFile (img : DSKImage) (e : DirectoryEntry) : Option (List Nat) :=
  match getGranuleChainFuel img.fat 69 e.firstGranule with
  | none => none
  | some chain =>
    let fileData := chain.foldl (fun acc gc => acc ++ readGranule img gc.1 gc.2) []
    some (trimExtract fileData e.lastSectorBytes)

/-- Projection used to state results about successful uploads. -/
def uploadOk : UploadResult → Option DSKImage
  | .ok s => some s
  | .err _ _ => none

/-! ## Frame lemmas for sector reads and writes -/

theorem get?_dropTake (x : List Nat) (a b n : Nat) :
    ((x.drop a).take b).get? n = if n < b then x.get? (a + n) else none := by
  by_cases h : n < b
  · rw [if_pos h, List.get?_take h, List.get?_drop]
  · rw [if_neg h, List.get?_eq_none.mpr]
    have h1 : ((x.drop a).take b).length = min b (x.drop a).length :=
      List.length_take b _
    omega

theorem dropTake_ext (x y : List Nat) (a b : Nat)
    (h : ∀ i, i < b → x.get? (a + i) = y.get? (a + i)) :
    (x.drop a).take b = (y.drop a).take b := by
  apply List.ext_get?
  intro n
  rw [get?_dropTake, get?_dropTake]
  by_cases hn : n < b
  · rw [if_pos hn, if_pos hn, h n hn]
  · rw [if_neg hn, if_neg hn]

theorem splice_get? (l p : List Nat) (off i : Nat)
    (hp : p.length = 256) (hoff : off + 256 ≤ l.length) :
    (l.take off ++ p ++ l.drop (off + 256)).get? i =
      if i < off then l.get? i
      else if i < off + 256 then p.get? (i - off)
      else l.get? i := by
  have hto : (l.take off).length = off := by
    rw [List.length_take]; omega
  have htp : (l.take off ++ p).length = off + 256 := by
    rw [List.length_append, hto, hp]
  by_cases h1 : i < off
  · rw [if_pos h1, List.get?_append (by omega : i < (l.take off ++ p).length),
      List.get?_append (by omega : i < (l.take off).length),
      List.get?_take h1]
  · rw [if_neg h1]
    by_cases h2 : i < off + 256
    · rw [if_pos h2, List.get?_append (by omega : i < (l.take off ++ p).length),
        List.get?_append_right (by omega : (l.take off).length ≤ i), hto]
    · rw [if_neg h2, List.get?_append_right (by omega : (l.take off ++ p).length ≤ i),
        htp, List.get?_drop]
      congr 1
      omega

theorem writeSector_eq {img img' : DSKImage} {t s : Nat} {p : List Nat}
    (h : writeSector img t s p = some img') :
    p.length = 256 ∧
    img' = { img with data :=
                img.data.take (getSectorOffset img t s) ++ p ++
                  img.data.drop (getSectorOffset img t s + 256) } := by
  unfold writeSector at h
  by_cases hp : p.length = 256
  · rw [if_pos hp] at h
    injection h with h2
    exact ⟨hp, h2.symm⟩
  · rw [if_neg hp] at h
    exact absurd h (by simp)

theorem writeSector_some (img : DSKImage) (t s : Nat) (p : List Nat)
    (hp : p.length = 256) :
    writeSector img t s p =
      some { img with data :=
                img.data.take (getSectorOffset img t s) ++ p ++
                  img.data.drop (getSectorOffset img t s + 256) } := by
  simp [writeSector, hp]

theorem writeSector_fields {img img' : DSKImage} {t s : Nat} {p : List Nat}
    (h : writeSector img t s p = some img')
    (hin : getSectorOffset img t s + 256 ≤ img.data.length) :
    img'.header = img.header ∧ img'.fat = img.fat ∧
      img'.directory = img.directory ∧ img'.data.length = img.data.length := by
  obtain ⟨hp, rfl⟩ := writeSector_eq h
  refine ⟨rfl, rfl, rfl, ?_⟩
  simp only [List.length_append, List.length_take, List.length_drop, hp]
  omega

theorem readSector_writeSector_self {img img' : DSKImage} {t s : Nat} {p : List Nat}
    (h : writeSector img t s p = some img')
    (hin : getSectorOffset img t s + 256 ≤ img.data.length) :
    readSector img' t s = p := by
  obtain ⟨hp, rfl⟩ := writeSector_eq h
  show ((_ ++ p ++ _).drop (getSectorOffset img t s)).take 256 = p
  apply List.ext_get?
  intro n
  rw [get?_dropTake]
  by_cases hn : n < 256
  · rw [if_pos hn, splice_get? _ _ _ _ hp hin,
      if_neg (by omega), if_pos (by omega)]
    congr 1
    omega
  · rw [if_neg hn, Eq.comm, List.get?_eq_none.mpr (by omega)]

theorem chunkPad_length (fileData : List Nat) (off : Nat) :
    (chunkPad fileData off).length = 256 := by
  unfold chunkPad
  have h : ((fileData.drop off).take 256).length = min 256 (fileData.drop off).length :=
    List.length_take _ _
  simp only [List.length_append, List.length_replicate]
  omega

theorem chunkPad_of_ge (fileData : List Nat) (a b : Nat)
    (ha : fileData.length ≤ a) (hb : fileData.length ≤ b) :
    chunkPad fileData a = chunkPad fileData b := by
  unfold chunkPad
  rw [List.drop_eq_nil_of_le ha, List.drop_eq_nil_of_le hb]

theorem readSector_writeSector_other {img img' : DSKImage} {t s t2 s2 : Nat}
    {p : List Nat}
    (h : writeSector img t s p = some img')
    (hin : getSectorOffset img t s + 256 ≤ img.data.length)
    (hdisj : getSectorOffset img t2 s2 + 256 ≤ getSectorOffset img t s ∨
      getSectorOffset img t s + 256 ≤ getSectorOffset img t2 s2) :
    readSector img' t2 s2 = readSector img t2 s2 := by
  obtain ⟨hp, rfl⟩ := writeSector_eq h
  show ((_ ++ p ++ _).drop (getSectorOffset img t2 s2)).take 256 =
    (img.data.drop (getSectorOffset img t2 s2)).take 256
  apply dropTake_ext
  intro i hi
  rw [splice_get? _ _ _ _ hp hin]
  rcases hdisj with hl | hr
  · rw [if_pos (by omega)]
  · rw [if_neg (by omega), if_neg (by omega)]

end CoCoDSK

namespace CoCoDSK

theorem writeSectorsFrom_succ (img : DSKImage) (track sector0 : Nat)
    (fileData : List Nat) (off n : Nat) :
    writeSectorsFrom img track sector0 fileData off (n + 1) =
      match writeSector img track sector0 (chunkPad fileData off) with
      | none => none
      | some img' => writeSectorsFrom img' track (sector0 + 1) fileData
          (off + ((fileData.drop off).take 256).length) n := rfl

/-- Full characterization of the inner sector-writing loop: metadata and
buffer length are preserved, the final `data_offset` is
`min len (off + 256·count)`, sectors disjoint from all written ones are
unchanged, and written sector `j` holds the zero-padded chunk at
`off + 256·j`. -/
theorem writeSectorsFrom_spec (fileData : List Nat) (track : Nat) :
    ∀ (count : Nat) (img : DSKImage) (sector0 off : Nat),
      (∀ j, j < count →
        getSectorOffset img track (sector0 + j) + 256 ≤ img.data.length) →
      (∀ j1 j2, j1 < count → j2 < count → j1 ≠ j2 →
        getSectorOffset img track (sector0 + j1) + 256 ≤
            getSectorOffset img track (sector0 + j2) ∨
          getSectorOffset img track (sector0 + j2) + 256 ≤
            getSectorOffset img track (sector0 + j1)) →
      off ≤ fileData.length →
      ∃ img', writeSectorsFrom img track sector0 fileData off count =
          some (img', min fileData.length (off + 256 * count)) ∧
        img'.header = img.header ∧ img'.fat = img.fat ∧
        img'.directory = img.directory ∧ img'.data.length = img.data.length ∧
        (∀ t2 s2, (∀ j, j < count →
            getSectorOffset img t2 s2 + 256 ≤
                getSectorOffset img track (sector0 + j) ∨
              getSectorOffset img track (sector0 + j) + 256 ≤
                getSectorOffset img t2 s2) →
          readSector img' t2 s2 = readSector img t2 s2) ∧
        (∀ j, j < count → readSector img' track (sector0 + j) =
          chunkPad fileData (off + 256 * j)) := by
  intro count
  induction count with
  | zero =>
    intro img sector0 off _ _ hoff
    refine ⟨img, ?_, rfl, rfl, rfl, rfl, fun _ _ _ => rfl,
      fun j hj => absurd hj (by omega)⟩
    show some (img, off) = some (img, min fileData.length (off + 256 * 0))
    congr 2
    omega
  | succ n ih =>
    intro img sector0 off hin hdist hoff
    have hin0 : getSectorOffset img track sector0 + 256 ≤ img.data.length := by
      have := hin 0 (by omega)
      simpa using this
    have hw := writeSector_some img track sector0 (chunkPad fileData off)
      (chunkPad_length _ _)
    set img1 : DSKImage :=
      { img with data :=
          img.data.take (getSectorOffset img track sector0) ++ chunkPad fileData off ++
            img.data.drop (getSectorOffset img track sector0 + 256) } with himg1
    have himg1off : ∀ t2 s2, getSectorOffset img1 t2 s2 = getSectorOffset img t2 s2 :=
      fun _ _ => rfl
    have himg1len : img1.data.length = img.data.length :=
      (writeSector_fields hw hin0).2.2.2
    set chunkl := ((fileData.drop off).take 256).length with hchunkldef
    have hchunkl : chunkl = min 256 (fileData.length - off) := by
      rw [hchunkldef, List.length_take, List.length_drop]
    obtain ⟨img', hrun, hh, hf, hd, hl, hframe, hcontent⟩ :=
      ih img1 (sector0 + 1) (off + chunkl)
        (fun j hj => by
          have h1 := hin (j + 1) (by omega)
          have e : sector0 + (j + 1) = sector0 + 1 + j := by omega
          rw [e] at h1
          rw [himg1off, himg1len]
          exact h1)
        (fun j1 j2 hj1 hj2 hne => by
          have h1 := hdist (j1 + 1) (j2 + 1) (by omega) (by omega) (by omega)
          have e1 : sector0 + (j1 + 1) = sector0 + 1 + j1 := by omega
          have e2 : sector0 + (j2 + 1) = sector0 + 1 + j2 := by omega
          rw [e1, e2] at h1
          rw [himg1off, himg1off]
          exact h1)
        (by omega)
    refine ⟨img', ?_, hh.trans rfl, hf.trans rfl, hd.trans rfl,
      hl.trans himg1len, ?_, ?_⟩
    · rw [writeSectorsFrom_succ, hw]
      show writeSectorsFrom img1 track (sector0 + 1) fileData (off + chunkl) n = _
      rw [hrun]
      congr 2
      omega
    · intro t2 s2 hd2
      have step1 : readSector img' t2 s2 = readSector img1 t2 s2 := by
        apply hframe
        intro j hj
        have h1 := hd2 (j + 1) (by omega)
        have e : sector0 + (j + 1) = sector0 + 1 + j := by omega
        rw [e] at h1
        rw [himg1off, himg1off]
        exact h1
      have step2 : readSector img1 t2 s2 = readSector img t2 s2 := by
        apply readSector_writeSector_other hw hin0
        have h1 := hd2 0 (by omega)
        simpa using h1
      exact step1.trans step2
    · intro j hj
      cases j with
      | zero =>
        have e : sector0 + 0 = sector0 := by omega
        rw [e]
        have step1 : readSector img' track sector0 = readSector img1 track sector0 := by
          apply hframe
          intro j' hj'
          have h1 := hdist 0 (j' + 1) (by omega) (by omega) (by omega)
          have e0 : sector0 + 0 = sector0 := by omega
          have e1 : sector0 + (j' + 1) = sector0 + 1 + j' := by omega
          rw [e0, e1] at h1
          rw [himg1off, himg1off]
          exact h1
        have step2 : readSector img1 track sector0 = chunkPad fileData off :=
          readSector_writeSector_self hw hin0
        rw [step1, step2]
        congr 1
      | succ j' =>
        have e : sector0 + (j' + 1) = sector0 + 1 + j' := by omega
        rw [e]
        rw [hcontent j' (by omega)]
        by_cases hc : off + 256 ≤ fileData.length
        · have : chunkl = 256 := by omega
          congr 1
          omega
        · apply chunkPad_of_ge
          · omega
          · omega

end CoCoDSK

namespace CoCoDSK

/-- `data_offset` at the start of granule number `i` of an upload that
began at offset `off`. -/
def offAt (len off i : Nat) : Nat := min len (off + 2304 * i)

/-- `sectors_to_write` for a granule whose data starts at offset `o`. -/
def stwOf (len o : Nat) : Nat := min 9 ((len - o + 255) / 256)

/-- The FAT shape `writeGranules` leaves along a granule list: every
granule points to its successor and the last carries the terminal marker
`0xC0 | sectors_to_write`. -/
def chainPtrs (fat : List Nat) (len : Nat) : List Nat → Nat → Prop
  | [], _ => True
  | [g], off => fat.get? g = some (Nat.lor 192 (stwOf len off))
  | g :: g2 :: rest, off =>
    fat.get? g = some g2 ∧ chainPtrs fat len (g2 :: rest) (min len (off + 2304))

/-- Byte offset of sector `j` (0-based) of a granule, for the standard
18-sectors-per-track geometry. -/
theorem granule_sector_off (img : DSKImage) (hspt : img.header.sectorsPerTrack = 18)
    (g j : Nat) (hg : g < 68) (hj : j < 9) :
    getSectorOffset img (granuleToTrackSector g).1 ((granuleToTrackSector g).2 + j) =
      img.header.headerSize + (9 * g + j + (if g < 34 then 0 else 18)) * 256 := by
  unfold getSectorOffset granuleToTrackSector
  rw [hspt]
  dsimp only
  have hdm := Nat.div_add_mod g 2
  have hm : g % 2 < 2 := Nat.mod_lt _ (by omega)
  by_cases h34 : g < 34
  · rw [if_pos h34, if_pos h34]
    congr 2
    omega
  · rw [if_neg h34, if_neg h34]
    congr 2
    omega

/-- Sectors of distinct granules (or distinct sectors of one granule)
live at disjoint 256-byte offset ranges. -/
theorem granule_sectors_disjoint (img : DSKImage)
    (hspt : img.header.sectorsPerTrack = 18)
    (gA gB jA jB : Nat) (hgA : gA < 68) (hgB : gB < 68)
    (hjA : jA < 9) (hjB : jB < 9) (hne : gA ≠ gB ∨ jA ≠ jB) :
    getSectorOffset img (granuleToTrackSector gA).1
        ((granuleToTrackSector gA).2 + jA) + 256 ≤
      getSectorOffset img (granuleToTrackSector gB).1
        ((granuleToTrackSector gB).2 + jB) ∨
    getSectorOffset img (granuleToTrackSector gB).1
        ((granuleToTrackSector gB).2 + jB) + 256 ≤
      getSectorOffset img (granuleToTrackSector gA).1
        ((granuleToTrackSector gA).2 + jA) := by
  rw [granule_sector_off img hspt gA jA hgA hjA,
    granule_sector_off img hspt gB jB hgB hjB]
  rcases hne with h | h
  · by_cases h1 : gA < 34 <;> by_cases h2 : gB < 34 <;>
      simp only [if_pos, if_neg, h1, h2, if_true, if_false] <;> omega
  · by_cases h1 : gA < 34 <;> by_cases h2 : gB < 34 <;>
      simp only [if_pos, if_neg, h1, h2, if_true, if_false] <;> omega

theorem writeGranules_cons (img : DSKImage) (fileData : List Nat)
    (g : Nat) (rest : List Nat) (off : Nat) :
    writeGranules img fileData (g :: rest) off =
      match writeSectorsFrom img (granuleToTrackSector g).1 (granuleToTrackSector g).2
          fileData off (stwOf fileData.length off) with
      | none => none
      | some (img', off') =>
        writeGranules
          (match rest with
           | g2 :: _ => { img' with fat := img'.fat.set g g2 }
           | [] => { img' with fat := img'.fat.set g (Nat.lor 192 (stwOf fileData.length off)) })
          fileData rest off' := rfl

/-- Full characterization of the granule-writing loop of
`upload_from_pc`: it succeeds, preserves metadata, buffer length and FAT
length, rewrites the FAT only at the listed granules — giving them the
chain shape `chainPtrs` — leaves disjoint sectors unchanged, and fills
granule `i`'s first `sectors_to_write` sectors with the file's chunks. -/
theorem writeGranules_spec (fileData : List Nat) :
    ∀ (gs : List Nat) (img : DSKImage) (off : Nat),
      img.header.sectorsPerTrack = 18 →
      img.data.length = img.header.headerSize + 161280 →
      img.fat.length = 68 →
      (∀ g ∈ gs, g < 68) →
      List.Pairwise (fun a b => a ≠ b) gs →
      off ≤ fileData.length →
      ∃ img' off', writeGranules img fileData gs off = some (img', off') ∧
        img'.header = img.header ∧ img'.directory = img.directory ∧
        img'.data.length = img.data.length ∧
        img'.fat.length = img.fat.length ∧
        (∀ x, (∀ g ∈ gs, x ≠ g) → img'.fat.get? x = img.fat.get? x) ∧
        chainPtrs img'.fat fileData.length gs off ∧
        (∀ t2 s2, (∀ g ∈ gs, ∀ j, j < 9 →
            getSectorOffset img t2 s2 + 256 ≤
                getSectorOffset img (granuleToTrackSector g).1
                  ((granuleToTrackSector g).2 + j) ∨
              getSectorOffset img (granuleToTrackSector g).1
                  ((granuleToTrackSector g).2 + j) + 256 ≤
                getSectorOffset img t2 s2) →
          readSector img' t2 s2 = readSector img t2 s2) ∧
        (∀ i g, gs.get? i = some g →
          ∀ j, j < stwOf fileData.length (offAt fileData.length off i) →
          readSector img' (granuleToTrackSector g).1 ((granuleToTrackSector g).2 + j) =
            chunkPad fileData (offAt fileData.length off i + 256 * j)) := by
  intro gs
  induction gs with
  | nil =>
    intro img off _ _ _ _ _ hoff
    exact ⟨img, off, rfl, rfl, rfl, rfl, rfl, fun _ _ => rfl, trivial,
      fun _ _ _ => rfl, fun i g hig => by simp at hig⟩
  | cons g rest ih =>
    intro img off hspt hdlen hfatlen hbound hpw hoff
    have hg : g < 68 := hbound g (by simp)
    have hgnotrest : ∀ g2 ∈ rest, g ≠ g2 := (List.pairwise_cons.mp hpw).1
    have hoffval : ∀ j, j < 9 →
        getSectorOffset img (granuleToTrackSector g).1 ((granuleToTrackSector g).2 + j) =
          img.header.headerSize + (9 * g + j + (if g < 34 then 0 else 18)) * 256 :=
      fun j hj => granule_sector_off img hspt g j hg hj
    have hstw9 : stwOf fileData.length off ≤ 9 := Nat.min_le_left _ _
    have hin : ∀ j, j < stwOf fileData.length off →
        getSectorOffset img (granuleToTrackSector g).1
          ((granuleToTrackSector g).2 + j) + 256 ≤ img.data.length := by
      intro j hj
      rw [hoffval j (by omega), hdlen]
      have : 9 * g + j + (if g < 34 then 0 else 18) ≤ 629 := by
        split <;> omega
      omega
    have hdistg : ∀ j1 j2, j1 < stwOf fileData.length off →
        j2 < stwOf fileData.length off → j1 ≠ j2 →
        getSectorOffset img (granuleToTrackSector g).1
            ((granuleToTrackSector g).2 + j1) + 256 ≤
          getSectorOffset img (granuleToTrackSector g).1
            ((granuleToTrackSector g).2 + j2) ∨
        getSectorOffset img (granuleToTrackSector g).1
            ((granuleToTrackSector g).2 + j2) + 256 ≤
          getSectorOffset img (granuleToTrackSector g).1
            ((granuleToTrackSector g).2 + j1) :=
      fun j1 j2 hj1 hj2 hne =>
        granule_sectors_disjoint img hspt g g j1 j2 hg hg (by omega) (by omega)
          (Or.inr hne)
    obtain ⟨img1, hrun1, hh1, hf1, hd1, hl1, hframe1, hcontent1⟩ :=
      writeSectorsFrom_spec fileData (granuleToTrackSector g).1
        (stwOf fileData.length off) img (granuleToTrackSector g).2 off hin hdistg hoff
    set off1 := min fileData.length (off + 256 * stwOf fileData.length off) with hoff1def
    have hoff1 : off1 = min fileData.length (off + 2304) := by
      rw [hoff1def]
      unfold stwOf
      omega
    have hoff1le : off1 ≤ fileData.length := by rw [hoff1def]; omega
    have hfatlen1 : img1.fat.length = 68 := by rw [hf1]; exact hfatlen
    have hgetg : img1.fat.get? g = some (img1.fat.getD g 0) := by
      have hlt : g < img1.fat.length := by omega
      rw [List.getD_eq_getElem _ _ hlt, List.get?_eq_get hlt]
      simp
    cases rest with
    | nil =>
      refine ⟨{ img1 with fat := img1.fat.set g (Nat.lor 192 (stwOf fileData.length off)) },
        off1, ?_, hh1, hd1, hl1, ?_, ?_, ?_, ?_, ?_⟩
      · rw [writeGranules_cons, hrun1]
        rfl
      · show (img1.fat.set g _).length = img.fat.length
        rw [List.length_set, hf1]
      · intro x hx
        show (img1.fat.set g _).get? x = img.fat.get? x
        rw [List.get?_set_ne _ _ (Ne.symm (hx g (by simp))), hf1]
      · show (img1.fat.set g _).get? g = some (Nat.lor 192 (stwOf fileData.length off))
        rw [List.get?_set_eq, hgetg]
        rfl
      · intro t2 s2 hdisj
        show readSector img1 t2 s2 = readSector img t2 s2
        apply hframe1
        intro j hj
        exact hdisj g (by simp) j (by omega)
      · intro i gi higi j hj
        cases i with
        | zero =>
          have hgi : gi = g := by
            simp only [List.get?] at higi
            exact (Option.some.injEq _ _ ▸ higi).symm
          subst hgi
          show readSector img1 _ _ = _
          have hoffat0 : offAt fileData.length off 0 = off := by
            unfold offAt
            omega
          rw [hoffat0] at hj
          rw [hcontent1 j hj, hoffat0]
        | succ i' =>
          simp [List.get?] at higi
    | cons g2 rest' =>
      set img2 : DSKImage := { img1 with fat := img1.fat.set g g2 } with himg2
      have hoffeq2 : ∀ t s, getSectorOffset img2 t s = getSectorOffset img t s := by
        intro t s
        unfold getSectorOffset
        rw [show img2.header = img.header from hh1]
      have hread2 : ∀ t s, readSector img2 t s = readSector img1 t s :=
        fun _ _ => rfl
      obtain ⟨img', off', hrun, hh, hd, hl, hfl, hfatframe, hcptrs, hframe, hcontent⟩ :=
        ih img2 off1
          (by show img2.header.sectorsPerTrack = 18; rw [show img2.header = img.header from hh1]; exact hspt)
          (by show img2.data.length = img2.header.headerSize + 161280
              rw [show img2.header = img.header from hh1]
              show img1.data.length = _
              rw [hl1, hdlen])
          (by show (img1.fat.set g g2).length = 68; rw [List.length_set]; omega)
          (fun g' hg' => hbound g' (by simp [hg']))
          ((List.pairwise_cons.mp hpw).2)
          hoff1le
      refine ⟨img', off', ?_, hh.trans hh1, hd.trans hd1, hl.trans hl1, ?_, ?_, ?_, ?_, ?_⟩
      · rw [writeGranules_cons, hrun1]
        exact hrun
      · rw [hfl]
        show (img1.fat.set g g2).length = img.fat.length
        rw [List.length_set, hf1]
      · intro x hx
        rw [hfatframe x (fun g' hg' => hx g' (by simp [hg']))]
        show (img1.fat.set g g2).get? x = img.fat.get? x
        rw [List.get?_set_ne _ _ (Ne.symm (hx g (by simp))), hf1]
      · constructor
        · rw [hfatframe g (fun g' hg' => hgnotrest g' hg')]
          show (img1.fat.set g g2).get? g = some g2
          rw [List.get?_set_eq, hgetg]
          rfl
        · rw [← hoff1]
          exact hcptrs
      · intro t2 s2 hdisj
        have step1 : readSector img' t2 s2 = readSector img2 t2 s2 := by
          apply hframe
          intro g' hg' j hj
          rw [hoffeq2, hoffeq2]
          exact hdisj g' (by simp [hg']) j hj
        rw [step1, hread2]
        apply hframe1
        intro j hj
        exact hdisj g (by simp) j (by omega)
      · intro i gi higi j hj
        cases i with
        | zero =>
          have hgi : gi = g := by
            simp only [List.get?] at higi
            exact (Option.some.injEq _ _ ▸ higi).symm
          subst hgi
          have hoffat0 : offAt fileData.length off 0 = off := by
            unfold offAt
            omega
          rw [hoffat0] at hj
          have step1 : readSector img' (granuleToTrackSector gi).1
              ((granuleToTrackSector gi).2 + j) = readSector img2 (granuleToTrackSector gi).1
              ((granuleToTrackSector gi).2 + j) := by
            apply hframe
            intro g' hg' j' hj'
            rw [hoffeq2, hoffeq2]
            exact granule_sectors_disjoint img hspt gi g' j j' hg
              (hbound g' (by simp [hg'])) (by omega) (by omega)
              (Or.inl (hgnotrest g' hg'))
          rw [step1, hread2, hcontent1 j hj, hoffat0]
        | succ i' =>
          have higi' : (g2 :: rest').get? i' = some gi := by
            simpa [List.get?] using higi
          have hoffshift : offAt fileData.length off (i' + 1) =
              offAt fileData.length off1 i' := by
            unfold offAt
            rw [hoff1]
            omega
          rw [hoffshift] at hj ⊢
          exact hcontent i' gi higi' j hj

end CoCoDSK

namespace CoCoDSK

theorem lor192_eq (s : Nat) (hs : s ≤ 9) : Nat.lor 192 s = 192 + s := by
  interval_cases s <;> rfl

theorem land192 (s : Nat) (hs : s ≤ 9) : Nat.land (192 + s) 15 = s := by
  interval_cases s <;> rfl

/-- The chain that the walk yields over a `chainPtrs`-shaped FAT: 9
sectors for every non-terminal granule, `sectors_to_write` (read as 9
when 0) for the terminal one. -/
def expectedChain (len : Nat) : List Nat → Nat → List (Nat × Nat)
  | [], _ => []
  | [g], off => [(g, if stwOf len off = 0 then 9 else stwOf len off)]
  | g :: g2 :: rest, off =>
    (g, 9) :: expectedChain len (g2 :: rest) (min len (off + 2304))


theorem getGranuleChainFuel_step (fat : List Nat) (fuel cur entry : Nat)
    (hcur : ¬ cur = 255) (hget : fat.get? cur = some entry) :
    getGranuleChainFuel fat (fuel + 1) cur =
      if 192 ≤ entry ∧ entry ≤ 201 then
        some [(cur, if Nat.land entry 15 = 0 then 9 else Nat.land entry 15)]
      else if entry ≤ 67 then
        (getGranuleChainFuel fat fuel entry).map (fun rest => (cur, 9) :: rest)
      else some [] := by
  have hunf : getGranuleChainFuel fat (fuel + 1) cur =
      (if cur = 255 then some []
      else match fat.get? cur with
        | none => none
        | some entry =>
          if 192 ≤ entry ∧ entry ≤ 201 then
            some [(cur, if Nat.land entry 15 = 0 then 9 else Nat.land entry 15)]
          else if entry ≤ 67 then
            (getGranuleChainFuel fat fuel entry).map (fun rest => (cur, 9) :: rest)
          else some []) := rfl
  rw [hunf, if_neg hcur, hget]

/-- Walking a FAT that carries a `chainPtrs` chain yields exactly that
chain. -/
theorem chainWalk_of_chainPtrs (fat : List Nat) (len : Nat) :
    ∀ (gs : List Nat) (off fuel : Nat) (g0 : Nat) (rest : List Nat),
      gs = g0 :: rest → gs.length < fuel → (∀ g ∈ gs, g < 68) →
      chainPtrs fat len gs off →
      getGranuleChainFuel fat fuel g0 = some (expectedChain len gs off) := by
  intro gs
  induction gs with
  | nil => intro off fuel g0 rest h; exact absurd h (by simp)
  | cons g tail ih =>
    intro off fuel g0 rest heq hfuel hbound hptrs
    injection heq with h1 h2
    subst h1
    subst h2
    have hg : g < 68 := hbound g (by simp)
    obtain ⟨fuel', rfl⟩ : ∃ f, fuel = f + 1 := by
      cases fuel with
      | zero => simp at hfuel
      | succ f => exact ⟨f, rfl⟩
    cases tail with
    | nil =>
      have hstw : stwOf len off ≤ 9 := Nat.min_le_left _ _
      have hptr : fat.get? g = some (Nat.lor 192 (stwOf len off)) := hptrs
      rw [lor192_eq _ hstw] at hptr
      rw [getGranuleChainFuel_step fat fuel' g _ (by omega) hptr]
      rw [if_pos (by constructor <;> omega)]
      show some [(g, _)] = some [(g, _)]
      rw [land192 _ hstw]
    | cons g2 rest' =>
      obtain ⟨hptr, hptrs'⟩ := hptrs
      have hg2 : g2 < 68 := hbound g2 (by simp)
      rw [getGranuleChainFuel_step fat fuel' g _ (by omega) hptr]
      rw [if_neg (by omega), if_pos (by omega)]
      rw [ih (min len (off + 2304)) fuel' g2 rest' rfl
        (by simp at hfuel ⊢; omega)
        (fun g' hg' => hbound g' (by simp at hg' ⊢; tauto)) hptrs']
      rfl

/-- `file_data[off:off+256·n]` as the loop writes it: `n` consecutive
zero-padded chunks. -/
def chunksFrom (fileData : List Nat) : Nat → Nat → List Nat
  | _, 0 => []
  | o, n + 1 => chunkPad fileData o ++ chunksFrom fileData (o + 256) n

theorem chunksFrom_length (fileData : List Nat) :
    ∀ n o, (chunksFrom fileData o n).length = 256 * n := by
  intro n
  induction n with
  | zero => intro o; rfl
  | succ m ih =>
    intro o
    show (chunkPad fileData o ++ chunksFrom fileData (o + 256) m).length = _
    rw [List.length_append, chunkPad_length, ih]
    ring

theorem chunksFrom_snoc (fileData : List Nat) :
    ∀ n o, chunksFrom fileData o (n + 1) =
      chunksFrom fileData o n ++ chunkPad fileData (o + 256 * n) := by
  intro n
  induction n with
  | zero =>
    intro o
    show chunkPad fileData o ++ [] = [] ++ chunkPad fileData (o + 256 * 0)
    simp
  | succ m ih =>
    intro o
    show chunkPad fileData o ++ chunksFrom fileData (o + 256) (m + 1) = _
    rw [ih (o + 256)]
    show _ = (chunkPad fileData o ++ chunksFrom fileData (o + 256) m) ++ _
    rw [List.append_assoc]
    have eo : o + 256 + 256 * m = o + 256 * (m + 1) := by omega
    rw [eo]

theorem chunksFrom_add (fileData : List Nat) :
    ∀ a o b, chunksFrom fileData o (a + b) =
      chunksFrom fileData o a ++ chunksFrom fileData (o + 256 * a) b := by
  intro a
  induction a with
  | zero => intro o b; simp [chunksFrom]
  | succ m ih =>
    intro o b
    have e : m + 1 + b = (m + b) + 1 := by omega
    rw [e]
    show chunkPad fileData o ++ chunksFrom fileData (o + 256) (m + b) = _
    rw [ih (o + 256) b]
    have eo : o + 256 + 256 * m = o + 256 * (m + 1) := by omega
    rw [eo]
    show _ = (chunkPad fileData o ++ chunksFrom fileData (o + 256) m) ++ _
    rw [List.append_assoc]

theorem chunksFrom_value (fileData : List Nat) :
    ∀ n o, chunksFrom fileData o n =
      (fileData.drop o).take (256 * n) ++
        List.replicate (256 * n - (fileData.length - o)) 0 := by
  intro n
  induction n with
  | zero => intro o; simp [chunksFrom]
  | succ m ih =>
    intro o
    show chunkPad fileData o ++ chunksFrom fileData (o + 256) m = _
    rw [ih (o + 256)]
    unfold chunkPad
    dsimp only
    have hlt : ((fileData.drop o).take 256).length =
        min 256 (fileData.length - o) := by
      rw [List.length_take, List.length_drop]
    by_cases hc : 256 ≤ fileData.length - o
    · have hc256 : ((fileData.drop o).take 256).length = 256 := by omega
      rw [hc256]
      have h0 : (256 : Nat) - 256 = 0 := rfl
      rw [h0, List.replicate_zero, List.append_nil]
      have hsplit : (fileData.drop o).take (256 * (m + 1)) =
          (fileData.drop o).take 256 ++ ((fileData.drop o).drop 256).take (256 * m) := by
        rw [← List.take_add]
        congr 1
        ring
      rw [hsplit]
      rw [List.drop_drop]
      rw [List.append_assoc]
      have hcnt : 256 * m - (fileData.length - (o + 256)) =
          256 * (m + 1) - (fileData.length - o) := by omega
      rw [hcnt]
    · have hdrop : fileData.drop (o + 256) = [] :=
        List.drop_eq_nil_of_le (by omega)
      rw [hdrop]
      show _ ++ _ ++ (List.take _ [] ++ _) = _
      rw [List.take_nil, List.nil_append]
      have hz : fileData.length - (o + 256) = 0 := by omega
      rw [hz]
      have htk : (fileData.drop o).take 256 = fileData.drop o := by
        apply List.take_of_length_le
        rw [List.length_drop]
        omega
      have htk2 : (fileData.drop o).take (256 * (m + 1)) = fileData.drop o := by
        apply List.take_of_length_le
        rw [List.length_drop]
        omega
      rw [htk, htk2, List.append_assoc, ← List.replicate_add]
      congr 2
      rw [List.length_drop]
      omega

theorem foldl_append_shift {β : Type} (f : β → List Nat) :
    ∀ (l : List β) (acc : List Nat),
      l.foldl (fun a x => a ++ f x) acc = acc ++ l.foldl (fun a x => a ++ f x) [] := by
  intro l
  induction l with
  | nil => intro acc; simp
  | cons x tail ih =>
    intro acc
    show tail.foldl _ (acc ++ f x) = acc ++ tail.foldl _ ([] ++ f x)
    rw [ih (acc ++ f x), ih ([] ++ f x)]
    simp [List.append_assoc]

theorem readGranule_chunks (img' : DSKImage) (fileData : List Nat) (g su o : Nat)
    (hreads : ∀ j, j < su →
      readSector img' (granuleToTrackSector g).1 ((granuleToTrackSector g).2 + j) =
        chunkPad fileData (o + 256 * j)) :
    readGranule img' g su = chunksFrom fileData o su := by
  have main : ∀ n, (∀ j, j < n →
      readSector img' (granuleToTrackSector g).1 ((granuleToTrackSector g).2 + j) =
        chunkPad fileData (o + 256 * j)) →
      (List.range n).foldl (fun acc i =>
        acc ++ readSector img' (granuleToTrackSector g).1
          ((granuleToTrackSector g).2 + i)) [] = chunksFrom fileData o n := by
    intro n
    induction n with
    | zero => intro _; rfl
    | succ m ih =>
      intro hr
      rw [List.range_succ, List.foldl_append, ih (fun j hj => hr j (by omega))]
      show chunksFrom fileData o m ++ _ = _
      rw [hr m (by omega), chunksFrom_snoc]
  exact main su hreads

/-- Folding the extract loop over a freshly written chain reads back the
file's chunks from `off` on. -/
theorem fold_expectedChain (img' : DSKImage) (fileData : List Nat) :
    ∀ (gs : List Nat) (off : Nat),
      (∀ g ∈ gs, g < 68) →
      off < fileData.length →
      gs.length = (fileData.length - off + 2303) / 2304 →
      (∀ i g, gs.get? i = some g →
        ∀ j, j < stwOf fileData.length (offAt fileData.length off i) →
        readSector img' (granuleToTrackSector g).1 ((granuleToTrackSector g).2 + j) =
          chunkPad fileData (offAt fileData.length off i + 256 * j)) →
      (expectedChain fileData.length gs off).foldl
          (fun acc gc => acc ++ readGranule img' gc.1 gc.2) [] =
        chunksFrom fileData off ((fileData.length - off + 255) / 256) := by
  intro gs
  induction gs with
  | nil =>
    intro off _ hofflt hcnt _
    exfalso
    have : (fileData.length - off + 2303) / 2304 ≠ 0 := by omega
    simp at hcnt
    omega
  | cons g rest ih =>
    intro off hbound hofflt hcnt hreads
    have hoffat0 : offAt fileData.length off 0 = off := by
      unfold offAt; omega
    cases rest with
    | nil =>
      have hle : fileData.length - off ≤ 2304 := by
        by_contra hgt
        have : 2 ≤ (fileData.length - off + 2303) / 2304 := by omega
        simp at hcnt
        omega
      have hstw : stwOf fileData.length off = (fileData.length - off + 255) / 256 := by
        unfold stwOf
        omega
      have hstwpos : 0 < stwOf fileData.length off := by
        unfold stwOf
        omega
      show [] ++ readGranule img' g _ = _
      rw [List.nil_append]
      have hsu : (if stwOf fileData.length off = 0 then 9
          else stwOf fileData.length off) = stwOf fileData.length off := by
        rw [if_neg (by omega)]
      rw [hsu]
      rw [readGranule_chunks img' fileData g _ off
        (fun j hj => by
          have := hreads 0 g rfl j (by rw [hoffat0]; exact hj)
          rw [hoffat0] at this
          exact this)]
      rw [hstw]
    | cons g2 rest' =>
      have hge : 2305 ≤ fileData.length - off := by
        by_contra hlt
        have : (fileData.length - off + 2303) / 2304 ≤ 1 := by omega
        simp at hcnt
        omega
      have hstw9 : stwOf fileData.length off = 9 := by
        unfold stwOf
        omega
      have hmin : min fileData.length (off + 2304) = off + 2304 := by omega
      show (expectedChain fileData.length (g :: g2 :: rest') off).foldl _ [] = _
      show ((g, 9) :: expectedChain fileData.length (g2 :: rest')
        (min fileData.length (off + 2304))).foldl _ [] = _
      rw [hmin]
      show (expectedChain fileData.length (g2 :: rest') (off + 2304)).foldl _
        ([] ++ readGranule img' g 9) = _
      rw [List.nil_append]
      rw [foldl_append_shift (fun gc : Nat × Nat => readGranule img' gc.1 gc.2)]
      rw [ih (off + 2304)
        (fun g' hg' => hbound g' (by simp at hg' ⊢; tauto))
        (by omega)
        (by simp at hcnt ⊢; omega)
        (fun i g' hig' j hj => by
          have hshift : offAt fileData.length (off + 2304) i =
              offAt fileData.length off (i + 1) := by
            unfold offAt; omega
          rw [hshift] at hj ⊢
          exact hreads (i + 1) g' (by simpa [List.get?] using hig') j hj)]
      rw [readGranule_chunks img' fileData g 9 off
        (fun j hj => by
          have := hreads 0 g rfl j (by rw [hoffat0]; omega)
          rw [hoffat0] at this
          exact this)]
      rw [← chunksFrom_add fileData 9 off _]
      congr 1
      omega

end CoCoDSK

namespace CoCoDSK

/-- Every granule `_find_free_granules` returns lies between the scan
start and the end of the FAT. -/
theorem ffgGo_bounds : ∀ (fatL : List Nat) (i need : Nat) (x : Nat),
    x ∈ findFreeGranulesGo fatL i need → i ≤ x ∧ x < i + fatL.length := by
  intro fatL
  induction fatL with
  | nil => intro i need x hx; simp [findFreeGranulesGo] at hx
  | cons e rest ih =>
    intro i need x hx
    unfold findFreeGranulesGo at hx
    by_cases he : e = 255
    · rw [if_pos he] at hx
      by_cases hn : need ≤ 1
      · rw [if_pos hn] at hx
        simp at hx
        simp [hx]
      · rw [if_neg hn] at hx
        rcases List.mem_cons.mp hx with h | h
        · simp [h]
        · have := ih (i + 1) (need - 1) x h
          constructor <;> [omega; (simp only [List.length_cons]; omega)]
    · rw [if_neg he] at hx
      have := ih (i + 1) need x hx
      constructor <;> [omega; (simp only [List.length_cons]; omega)]

theorem ffgGo_sorted : ∀ (fatL : List Nat) (i need : Nat),
    List.Pairwise (fun a b => a < b) (findFreeGranulesGo fatL i need) := by
  intro fatL
  induction fatL with
  | nil => intro i need; simp [findFreeGranulesGo]
  | cons e rest ih =>
    intro i need
    unfold findFreeGranulesGo
    by_cases he : e = 255
    · rw [if_pos he]
      by_cases hn : need ≤ 1
      · rw [if_pos hn]; simp
      · rw [if_neg hn]
        rw [List.pairwise_cons]
        exact ⟨fun x hx => (ffgGo_bounds rest (i + 1) (need - 1) x hx).1.trans_lt'
          (by omega), ih (i + 1) (need - 1)⟩
    · rw [if_neg he]
      exact ih (i + 1) need

theorem ffgGo_length : ∀ (fatL : List Nat) (i need : Nat), 1 ≤ need →
    need ≤ fatL.countP (fun v => v = 255) →
    (findFreeGranulesGo fatL i need).length = need := by
  intro fatL
  induction fatL with
  | nil =>
    intro i need h1 h2
    rw [List.countP_nil] at h2
    omega
  | cons e rest ih =>
    intro i need h1 h2
    rw [List.countP_cons] at h2
    unfold findFreeGranulesGo
    by_cases he : e = 255
    · rw [if_pos he]
      by_cases hn : need ≤ 1
      · rw [if_pos hn]
        simp
        omega
      · rw [if_neg hn]
        rw [List.length_cons, ih (i + 1) (need - 1) (by omega)
          (by simp [he] at h2; omega)]
        omega
    · rw [if_neg he]
      apply ih i.succ need h1
      simp [he] at h2
      exact h2

/-- For a positive request within the free count, `_find_free_granules`
returns exactly `count` pairwise-distinct granule numbers below the FAT
length, in ascending order. -/
theorem findFreeGranules_spec (fat : List Nat) (count : Nat)
    (h1 : 1 ≤ count) (h2 : count ≤ freeCount fat) :
    (findFreeGranules fat count).length = count ∧
      List.Pairwise (fun a b => a < b) (findFreeGranules fat count) ∧
      ∀ x ∈ findFreeGranules fat count, x < fat.length := by
  refine ⟨ffgGo_length fat 0 count h1 h2, ffgGo_sorted fat 0 count, ?_⟩
  intro x hx
  have := ffgGo_bounds fat 0 count x hx
  omega

/-- The slot `_find_free_directory_slot` returns: a sector in the scanned
list at a 32-aligned offset of a slot index below 8. -/
theorem findSlotInSector_spec : ∀ (sectorData : List Nat) (slots : List Nat)
    (off : Nat), findSlotInSector sectorData slots = some (some off) →
    ∃ i ∈ slots, off = i * 32 ∧
      ∃ b, sectorData.get? (i * 32) = some b ∧ (b = 0 ∨ b = 255) := by
  intro sectorData slots
  induction slots with
  | nil => intro off h; simp [findSlotInSector] at h
  | cons i is ih =>
    intro off h
    unfold findSlotInSector at h
    split at h
    · exact absurd h (by simp)
    · rename_i b hg
      split at h
      · rename_i hb
        injection h with h2
        injection h2 with h3
        exact ⟨i, by simp, h3.symm, b, hg, hb⟩
      · rename_i hb
        obtain ⟨j, hj, hoff, b2, hb2, hfree⟩ := ih off h
        exact ⟨j, by simp [hj], hoff, b2, hb2, hfree⟩

theorem findFreeDirectorySlot_spec (img : DSKImage) :
    ∀ (secs : List Nat) (sec off : Nat),
      findFreeDirectorySlot img secs = some (some (sec, off)) →
      sec ∈ secs ∧ ∃ i < 8, off = i * 32 ∧
        ∃ b, (readSector img 17 sec).get? (i * 32) = some b ∧ (b = 0 ∨ b = 255) := by
  intro secs
  induction secs with
  | nil => intro sec off h; simp [findFreeDirectorySlot] at h
  | cons s ss ih =>
    intro sec off h
    unfold findFreeDirectorySlot at h
    split at h
    · exact absurd h (by simp)
    · rename_i o2 hs
      injection h with h2
      injection h2 with h3
      injection h3 with h4 h5
      subst h4
      subst h5
      obtain ⟨i, hi, hoff, b, hb, hfree⟩ := findSlotInSector_spec _ _ _ hs
      exact ⟨by simp, i, by simpa using hi, hoff, b, hb, hfree⟩
    · rename_i hs
      obtain ⟨hmem, rest⟩ := ih sec off h
      exact ⟨by simp [hmem], rest⟩

end CoCoDSK

namespace CoCoDSK

theorem scanSlots_some (sectorData : List Nat) :
    ∀ slots : List Nat, (∀ i ∈ slots, i * 32 < sectorData.length) →
      ∃ es, scanSlots sectorData slots = some es := by
  intro slots
  induction slots with
  | nil => intro _; exact ⟨[], rfl⟩
  | cons i is ih =>
    intro hin
    obtain ⟨es, hes⟩ := ih (fun j hj => hin j (by simp [hj]))
    have hlen : 0 < ((sectorData.drop (i * 32)).take 32).length := by
      rw [List.length_take, List.length_drop]
      have := hin i (by simp)
      omega
    unfold scanSlots
    cases he : (sectorData.drop (i * 32)).take 32 with
    | nil => rw [he] at hlen; simp at hlen
    | cons b tail =>
      dsimp only
      by_cases hb : b ≠ 0 ∧ b ≠ 255
      · rw [if_pos hb]
        cases hp : parseDirectoryEntry (b :: tail) with
        | none => exact ⟨es, hes⟩
        | some e => exact ⟨e :: es, by rw [hes]; rfl⟩
      · rw [if_neg hb]
        exact ⟨es, hes⟩

theorem scanSlots_mem (sectorData : List Nat) :
    ∀ (slots : List Nat) (es : List DirectoryEntry) (i b : Nat)
      (tail : List Nat) (e : DirectoryEntry),
      scanSlots sectorData slots = some es → i ∈ slots →
      (sectorData.drop (i * 32)).take 32 = b :: tail →
      ¬ b = 0 → ¬ b = 255 →
      parseDirectoryEntry (b :: tail) = some e → e ∈ es := by
  intro slots
  induction slots with
  | nil => intro es i b tail e _ hmem; simp at hmem
  | cons j js ih =>
    intro es i b tail e hscan hmem hslot hb0 hb255 hparse
    unfold scanSlots at hscan
    by_cases hji : j = i
    · subst hji
      rw [hslot] at hscan
      dsimp only at hscan
      rw [if_pos ⟨hb0, hb255⟩, hparse] at hscan
      cases hrec : scanSlots sectorData js with
      | none => rw [hrec] at hscan; exact absurd hscan (by simp)
      | some rest =>
        rw [hrec] at hscan
        injection hscan with h2
        rw [← h2]
        simp
    · have hmem' : i ∈ js := by
        rcases List.mem_cons.mp hmem with h | h
        · exact absurd h.symm hji
        · exact h
      cases hslotj : (sectorData.drop (j * 32)).take 32 with
      | nil => rw [hslotj] at hscan; exact absurd hscan (by simp)
      | cons b2 tail2 =>
        rw [hslotj] at hscan
        dsimp only at hscan
        by_cases hb2 : b2 ≠ 0 ∧ b2 ≠ 255
        · rw [if_pos hb2] at hscan
          cases hp : parseDirectoryEntry (b2 :: tail2) with
          | none =>
            rw [hp] at hscan
            exact ih es i b tail e hscan hmem' hslot hb0 hb255 hparse
          | some e2 =>
            rw [hp] at hscan
            cases hrec : scanSlots sectorData js with
            | none => rw [hrec] at hscan; exact absurd hscan (by simp)
            | some rest =>
              rw [hrec] at hscan
              injection hscan with h2
              rw [← h2]
              have := ih rest i b tail e hrec hmem' hslot hb0 hb255 hparse
              simp [this]
        · rw [if_neg hb2] at hscan
          exact ih es i b tail e hscan hmem' hslot hb0 hb255 hparse

theorem readDirSectors_some (img : DSKImage) :
    ∀ secs : List Nat, (∀ sec ∈ secs, (readSector img 17 sec).length = 256) →
      ∃ es, readDirSectors img secs = some es := by
  intro secs
  induction secs with
  | nil => intro _; exact ⟨[], rfl⟩
  | cons s ss ih =>
    intro hall
    obtain ⟨es1, hes1⟩ := scanSlots_some (readSector img 17 s) (List.range 8)
      (fun i hi => by
        rw [hall s (by simp)]
        have : i < 8 := List.mem_range.mp hi
        omega)
    obtain ⟨tail, htail⟩ := ih (fun sec hsec => hall sec (by simp [hsec]))
    refine ⟨es1 ++ tail, ?_⟩
    unfold readDirSectors
    rw [hes1, htail]
    rfl

theorem readDirSectors_mem (img : DSKImage) :
    ∀ (secs : List Nat) (es es2 : List DirectoryEntry) (sec : Nat)
      (e : DirectoryEntry),
      readDirSectors img secs = some es → sec ∈ secs →
      scanSlots (readSector img 17 sec) (List.range 8) = some es2 →
      e ∈ es2 → e ∈ es := by
  intro secs
  induction secs with
  | nil => intro es es2 sec e _ hmem; simp at hmem
  | cons s ss ih =>
    intro es es2 sec e hrun hmem hscan hemem
    unfold readDirSectors at hrun
    by_cases hss : s = sec
    · subst hss
      rw [hscan] at hrun
      cases htail : readDirSectors img ss with
      | none => rw [htail] at hrun; exact absurd hrun (by simp)
      | some tail =>
        rw [htail] at hrun
        injection hrun with h2
        rw [← h2]
        exact List.mem_append_left _ hemem
    · have hmem' : sec ∈ ss := by
        rcases List.mem_cons.mp hmem with h | h
        · exact absurd h.symm hss
        · exact h
      cases hs1 : scanSlots (readSector img 17 s) (List.range 8) with
      | none => rw [hs1] at hrun; exact absurd hrun (by simp)
      | some es1 =>
        rw [hs1] at hrun
        cases htail : readDirSectors img ss with
        | none => rw [htail] at hrun; exact absurd hrun (by simp)
        | some tail =>
          rw [htail] at hrun
          injection hrun with h2
          rw [← h2]
          exact List.mem_append_right _ (ih tail es2 sec e htail hmem' hscan hemem)

/-- Parsing the 32-byte entry `upload_from_pc` builds recovers the
stored fields. -/
theorem parse_built_entry (name ext : List Nat) (ft af g0 lsb : Nat)
    (hname : name.length = 8) (hext : ext.length = 3)
    (hg0 : g0 ≤ 67) (hlsb : lsb ≤ 65535)
    (hnameAscii : ∀ c ∈ name, c < 128) (hextAscii : ∀ c ∈ ext, c < 128) :
    parseDirectoryEntry (name ++ ext ++ [ft, af, g0, lsb / 256, lsb % 256] ++
        List.replicate 16 255) =
      some ⟨pyRstrip name, pyRstrip ext, ft, af, g0, lsb⟩ := by
  set mid : List Nat := [ft, af, g0, lsb / 256, lsb % 256] with hmid
  have hlen : (name ++ ext ++ mid ++ List.replicate 16 255).length = 32 := by
    simp [hname, hext, hmid]
  have hne : (name ++ ext).length = 11 := by
    rw [List.length_append, hname, hext]
  have hA : (name ++ ext ++ mid).length = 16 := by
    rw [List.length_append, hne]
    rfl
  have htake8 : (name ++ ext ++ mid ++ List.replicate 16 255).take 8 = name := by
    rw [List.append_assoc, List.append_assoc,
      List.take_append_of_le_length (by omega),
      List.take_of_length_le (by omega)]
  have hdrop8 : ((name ++ ext ++ mid ++ List.replicate 16 255).drop 8).take 3 = ext := by
    rw [List.append_assoc, List.append_assoc,
      show (8 : Nat) = name.length from hname.symm, List.drop_left,
      List.take_append_of_le_length (by omega),
      List.take_of_length_le (by omega)]
  have hgetD : ∀ k, k < 5 →
      (name ++ ext ++ mid ++ List.replicate 16 255).getD (11 + k) 0 =
        mid.getD k 0 := by
    intro k hk
    rw [List.getD_append _ _ _ _ (by omega),
      List.getD_append_right _ _ _ _ (by omega), hne]
    congr 1
    omega
  have hfilter_name : name.filter (fun b => decide (b < 128)) = name :=
    List.filter_eq_self.mpr (fun a ha => by simpa using hnameAscii a ha)
  have hfilter_ext : ext.filter (fun b => decide (b < 128)) = ext :=
    List.filter_eq_self.mpr (fun a ha => by simpa using hextAscii a ha)
  unfold parseDirectoryEntry
  rw [if_pos hlen]
  dsimp only
  rw [htake8, hdrop8]
  rw [show (11 : Nat) = 11 + 0 from rfl, hgetD 0 (by omega)]
  rw [show (12 : Nat) = 11 + 1 from rfl, hgetD 1 (by omega)]
  rw [show (13 : Nat) = 11 + 2 from rfl, hgetD 2 (by omega)]
  rw [show (14 : Nat) = 11 + 3 from rfl, hgetD 3 (by omega)]
  rw [show (15 : Nat) = 11 + 4 from rfl, hgetD 4 (by omega)]
  have hm0 : mid.getD 0 0 = ft := rfl
  have hm1 : mid.getD 1 0 = af := rfl
  have hm2 : mid.getD 2 0 = g0 := rfl
  have hm3 : mid.getD 3 0 = lsb / 256 := rfl
  have hm4 : mid.getD 4 0 = lsb % 256 := rfl
  rw [hm0, hm1, hm2, hm3, hm4]
  rw [if_neg (by omega)]
  unfold decodeAsciiIgnore
  rw [hfilter_name, hfilter_ext]
  have hdm : lsb / 256 * 256 + lsb % 256 = lsb := by omega
  rw [hdm]

end CoCoDSK

namespace CoCoDSK

theorem track17_off (img : DSKImage) (hspt : img.header.sectorsPerTrack = 18)
    (s : Nat) (hs1 : 1 ≤ s) :
    getSectorOffset img 17 s = img.header.headerSize + (305 + s) * 256 := by
  unfold getSectorOffset
  rw [hspt]
  congr 2
  omega

theorem track17_in_range (img : DSKImage) (hspt : img.header.sectorsPerTrack = 18)
    (hdlen : img.data.length = img.header.headerSize + 161280)
    (s : Nat) (hs1 : 1 ≤ s) (hs2 : s ≤ 18) :
    getSectorOffset img 17 s + 256 ≤ img.data.length := by
  rw [track17_off img hspt s hs1, hdlen]
  omega

theorem track17_read_length (img : DSKImage)
    (hspt : img.header.sectorsPerTrack = 18)
    (hdlen : img.data.length = img.header.headerSize + 161280)
    (s : Nat) (hs1 : 1 ≤ s) (hs2 : s ≤ 18) :
    (readSector img 17 s).length = 256 := by
  rw [readSector_length]
  have := track17_in_range img hspt hdlen s hs1 hs2
  omega

theorem track17_granule_disjoint (img : DSKImage)
    (hspt : img.header.sectorsPerTrack = 18)
    (s g j : Nat) (hs1 : 1 ≤ s) (hs2 : s ≤ 18) (hg : g < 68) (hj : j < 9) :
    getSectorOffset img 17 s + 256 ≤
        getSectorOffset img (granuleToTrackSector g).1
          ((granuleToTrackSector g).2 + j) ∨
      getSectorOffset img (granuleToTrackSector g).1
          ((granuleToTrackSector g).2 + j) + 256 ≤
        getSectorOffset img 17 s := by
  rw [track17_off img hspt s hs1, granule_sector_off img hspt g j hg hj]
  by_cases h34 : g < 34
  · rw [if_pos h34]
    right
    omega
  · rw [if_neg h34]
    left
    omega

theorem track17_sectors_disjoint (img : DSKImage)
    (hspt : img.header.sectorsPerTrack = 18)
    (s1 s2 : Nat) (h11 : 1 ≤ s1) (h21 : 1 ≤ s2) (hne : s1 ≠ s2) :
    getSectorOffset img 17 s1 + 256 ≤ getSectorOffset img 17 s2 ∨
      getSectorOffset img 17 s2 + 256 ≤ getSectorOffset img 17 s1 := by
  rw [track17_off img hspt s1 h11, track17_off img hspt s2 h21]
  omega

/-- Every FAT value along a committed chain is a byte. -/
theorem chainPtrs_values (fat : List Nat) (len : Nat) :
    ∀ (gs : List Nat) (off : Nat), chainPtrs fat len gs off →
      (∀ g ∈ gs, g < 68) →
      ∀ g ∈ gs, ∃ v, fat.get? g = some v ∧ v < 256 := by
  intro gs
  induction gs with
  | nil => intro off _ _ g hg; simp at hg
  | cons g1 rest ih =>
    intro off hptr hbound g hg
    cases rest with
    | nil =>
      have hv : fat.get? g1 = some (Nat.lor 192 (stwOf len off)) := hptr
      have hstw : stwOf len off ≤ 9 := Nat.min_le_left _ _
      rw [lor192_eq _ hstw] at hv
      rcases List.mem_cons.mp hg with h | h
      · subst h; exact ⟨_, hv, by omega⟩
      · simp at h
    | cons g2 rest' =>
      obtain ⟨hv, hrest⟩ := hptr
      rcases List.mem_cons.mp hg with h | h
      · subst h
        refine ⟨g2, hv, ?_⟩
        have : g2 < 68 := hbound g2 (by simp)
        omega
      · exact ih _ hrest (fun g' hg' => hbound g' (by simp [hg'])) g h

/-- `find_free_granules` with `count = 0` equals the `count = 1` scan
(the Python loop appends before testing `len(free) >= count`). -/
theorem ffgGo_zero_eq_one : ∀ (fatL : List Nat) (i : Nat),
    findFreeGranulesGo fatL i 0 = findFreeGranulesGo fatL i 1 := by
  intro fatL
  induction fatL with
  | nil => intro i; rfl
  | cons e rest ih =>
    intro i
    unfold findFreeGranulesGo
    by_cases he : e = 255
    · rw [if_pos he, if_pos he, if_pos (by omega), if_pos (by omega)]
    · rw [if_neg he, if_neg he]
      exact ih (i + 1)

end CoCoDSK

namespace CoCoDSK

/-- `last_sector_bytes` as computed by `upload_from_pc`. -/
def uploadLsb (fileData : List Nat) : Nat :=
  if fileData.length % 256 = 0 ∧ 0 < fileData.length then 256
  else fileData.length % 256

theorem ljustPad_length (l : List Nat) (n : Nat) : (ljustPad l n).length = n := by
  unfold ljustPad
  rw [List.length_append, List.length_replicate, List.length_take]
  omega

theorem ljustPad_mem (l : List Nat) (n c : Nat) (hc : c ∈ ljustPad l n) :
    c ∈ l ∨ c = 32 := by
  unfold ljustPad at hc
  rcases List.mem_append.mp hc with h | h
  · exact Or.inl (List.mem_of_mem_take h)
  · exact Or.inr (List.eq_of_mem_replicate h)

theorem rsplitDot_mem1 (nm : List Nat) (c : Nat) (hc : c ∈ (rsplitDot nm).1) :
    c ∈ nm := by
  unfold rsplitDot at hc
  cases h : firstIdxOf 46 nm.reverse with
  | none => rw [h] at hc; exact hc
  | some k => rw [h] at hc; exact List.mem_of_mem_take hc

theorem rsplitDot_mem2 (nm : List Nat) (c : Nat) (hc : c ∈ (rsplitDot nm).2) :
    c ∈ nm := by
  unfold rsplitDot at hc
  cases h : firstIdxOf 46 nm.reverse with
  | none => rw [h] at hc; simp at hc
  | some k => rw [h] at hc; exact List.mem_of_mem_drop hc

end CoCoDSK

namespace CoCoDSK


/-- Taking `k` bytes at offset `n` out of a spliced buffer whose prefix has
length `n` lands inside the middle segment. -/
theorem dropTake_append_mid (A B C : List Nat) (n k : Nat) (hA : A.length = n)
    (hk : k ≤ B.length) : ((A ++ B ++ C).drop n).take k = B.take k := by
  rw [List.append_assoc, ← hA, List.drop_left, List.take_append_of_le_length hk]

/-- Master characterization of a successful `upload_from_pc` with a
caller-supplied 8.3 name on a standard-geometry image: the call returns
`True`, commits the FAT chain over the ascending free granules, writes
the file's chunks into their sectors, stores the directory entry at the
free slot, and refreshes the directory cache so the new entry is in it. -/
theorem uploadFromPc_ok (img : DSKImage) (fileData nm pcB : List Nat)
    (ft af dirSec dirOff : Nat)
    (hspt : img.header.sectorsPerTrack = 18)
    (hdlen : img.data.length = img.header.headerSize + 161280)
    (hfatlen : img.fat.length = 68)
    (hfatbytes : ∀ v ∈ img.fat, v < 256)
    (hnm : ¬ nm = [])
    (hascii : ∀ c ∈ nm, 0 < c ∧ c < 128)
    (hft : ft < 256) (haf : af < 256)
    (hfree : max 1 ((fileData.length + 2304 - 1) / 2304) ≤ freeCount img.fat)
    (hslot : findFreeDirectorySlot img (List.range' 3 9) = some (some (dirSec, dirOff))) :
    ∃ s' g0 gs',
      uploadFromPc img fileData (some nm) pcB ft af = .ok s' ∧
      findFreeGranules img.fat ((fileData.length + 2304 - 1) / 2304) = g0 :: gs' ∧
      (g0 :: gs').length = max 1 ((fileData.length + 2304 - 1) / 2304) ∧
      List.Pairwise (fun a b => a < b) (g0 :: gs') ∧
      (∀ g ∈ g0 :: gs', g < 68) ∧
      s'.header = img.header ∧
      s'.data.length = img.data.length ∧
      s'.fat.length = 68 ∧
      chainPtrs s'.fat fileData.length (g0 :: gs') 0 ∧
      (∀ x, (∀ g ∈ g0 :: gs', x ≠ g) → s'.fat.get? x = img.fat.get? x) ∧
      (∀ i g, (g0 :: gs').get? i = some g →
        ∀ j, j < stwOf fileData.length (offAt fileData.length 0 i) →
        readSector s' (granuleToTrackSector g).1 ((granuleToTrackSector g).2 + j) =
          chunkPad fileData (offAt fileData.length 0 i + 256 * j)) ∧
      (⟨pyRstrip (ljustPad (rsplitDot nm).1 8), pyRstrip (ljustPad (rsplitDot nm).2 3),
          ft, af, g0, uploadLsb fileData⟩ : DirectoryEntry) ∈ s'.directory ∧
      ((readSector s' 17 dirSec).drop dirOff).take 11 =
        ljustPad (rsplitDot nm).1 8 ++ ljustPad (rsplitDot nm).2 3 ∧
      readSector s' 17 2 = s'.fat ++ (readSector img 17 2).drop 68 ∧
      (∀ sec, 3 ≤ sec → sec ≤ 11 → ¬ sec = dirSec →
        readSector s' 17 sec = readSector img 17 sec) ∧
      readSector s' 17 dirSec =
        (readSector img 17 dirSec).take dirOff ++
          (ljustPad (rsplitDot nm).1 8 ++ ljustPad (rsplitDot nm).2 3 ++
            [ft, af, g0, uploadLsb fileData / 256, uploadLsb fileData % 256] ++
            List.replicate 16 255) ++
          (readSector img 17 dirSec).drop (dirOff + 32) := by
  -- abbreviations
  set len := fileData.length with hlend
  set gn := (fileData.length + 2304 - 1) / 2304 with hgnd
  set name8 := ljustPad (rsplitDot nm).1 8 with hname8d
  set ext3 := ljustPad (rsplitDot nm).2 3 with hext3d
  set lsb := uploadLsb fileData with hlsbd
  have hn8len : name8.length = 8 := ljustPad_length _ _
  have he3len : ext3.length = 3 := ljustPad_length _ _
  have hn8ascii : ∀ c ∈ name8, 0 < c ∧ c < 128 := by
    intro c hc
    rcases ljustPad_mem _ _ _ hc with h | h
    · exact hascii c (rsplitDot_mem1 nm c h)
    · omega
  have he3ascii : ∀ c ∈ ext3, 0 < c ∧ c < 128 := by
    intro c hc
    rcases ljustPad_mem _ _ _ hc with h | h
    · exact hascii c (rsplitDot_mem2 nm c h)
    · omega
  have hlsbv : lsb ≤ 256 := by
    rw [hlsbd]
    unfold uploadLsb
    split
    · omega
    · have := Nat.mod_lt fileData.length (show 0 < 256 by omega)
      omega
  -- the granule list
  have hlen_gs : (findFreeGranules img.fat gn).length = max 1 gn := by
    by_cases hgn0 : gn = 0
    · rw [hgn0]
      show (findFreeGranulesGo img.fat 0 0).length = _
      rw [ffgGo_zero_eq_one, ffgGo_length img.fat 0 1 (by omega)
        (by show (1 : Nat) ≤ freeCount img.fat; omega)]
      omega
    · show (findFreeGranulesGo img.fat 0 gn).length = _
      rw [ffgGo_length img.fat 0 gn (by omega)
        (by show gn ≤ freeCount img.fat; omega)]
      omega
  obtain ⟨g0, gs', hgs⟩ : ∃ g0 gs', findFreeGranules img.fat gn = g0 :: gs' := by
    cases h : findFreeGranules img.fat gn with
    | nil => rw [h] at hlen_gs; simp at hlen_gs; omega
    | cons a b => exact ⟨a, b, rfl⟩
  have hlen_cons : (g0 :: gs').length = max 1 gn := hgs ▸ hlen_gs
  have hsorted : List.Pairwise (fun a b => a < b) (g0 :: gs') :=
    hgs ▸ ffgGo_sorted img.fat 0 gn
  have hbounds : ∀ g ∈ g0 :: gs', g < 68 := by
    intro g hg
    rw [← hgs] at hg
    have := ffgGo_bounds img.fat 0 gn g hg
    omega
  have hpw_ne : List.Pairwise (fun a b => a ≠ b) (g0 :: gs') :=
    hsorted.imp (fun h => Nat.ne_of_lt h)
  -- granule writes
  obtain ⟨img1, off1, hwg, hh1, hd1, hl1, hfl1, hfatfr1, hcptr1, hfr1, hct1⟩ :=
    writeGranules_spec fileData (g0 :: gs') img 0 hspt hdlen hfatlen hbounds hpw_ne
      (by omega)
  have hoffeq1 : ∀ t s, getSectorOffset img1 t s = getSectorOffset img t s := by
    intro t s
    unfold getSectorOffset
    rw [hh1]
  have hspt1 : img1.header.sectorsPerTrack = 18 := by rw [hh1]; exact hspt
  have hdlen1 : img1.data.length = img1.header.headerSize + 161280 := by
    rw [hl1, hh1]
    exact hdlen
  have hfatlen1 : img1.fat.length = 68 := by rw [hfl1]; exact hfatlen
  -- slot facts
  obtain ⟨hsecmem, i, hi8, hoffval, bfree, hslotbyte, hbfree⟩ :=
    findFreeDirectorySlot_spec img _ dirSec dirOff hslot
  have hsecrange : 3 ≤ dirSec ∧ dirSec ≤ 11 := by
    have := List.mem_range'_1.mp hsecmem
    omega
  have hoffb : dirOff + 32 ≤ 256 := by omega
  -- track-17 reads on img / img1
  have ht17len : ∀ s, 1 ≤ s → s ≤ 18 → (readSector img 17 s).length = 256 :=
    fun s h1 h2 => track17_read_length img hspt hdlen s h1 h2
  have ht17len1 : ∀ s, 1 ≤ s → s ≤ 18 → (readSector img1 17 s).length = 256 :=
    fun s h1 h2 => track17_read_length img1 hspt1 hdlen1 s h1 h2
  have ht17same1 : ∀ s, 1 ≤ s → s ≤ 18 → readSector img1 17 s = readSector img 17 s := by
    intro s h1 h2
    apply hfr1
    intro g hg j hj
    exact track17_granule_disjoint img hspt s g j h1 h2 (hbounds g hg) hj
  -- directory entry bytes
  set entryData : List Nat :=
    name8 ++ ext3 ++ [ft, af, g0, lsb / 256, lsb % 256] ++ List.replicate 16 255
    with hentryd
  have hentrylen : entryData.length = 32 := by
    rw [hentryd]
    simp [hn8len, he3len]
  -- the directory-sector write
  set p : List Nat :=
    (readSector img1 17 dirSec).take dirOff ++ entryData ++
      (readSector img1 17 dirSec).drop (dirOff + 32) with hpd
  have hplen : p.length = 256 := by
    rw [hpd]
    rw [List.length_append, List.length_append, List.length_take,
      List.length_drop, hentrylen, ht17len1 dirSec (by omega) (by omega)]
    omega
  have hw2 := writeSector_some img1 17 dirSec p hplen
  set img2 : DSKImage :=
    { img1 with data := img1.data.take (getSectorOffset img1 17 dirSec) ++ p ++
        img1.data.drop (getSectorOffset img1 17 dirSec + 256) } with himg2d
  have hin2 : getSectorOffset img1 17 dirSec + 256 ≤ img1.data.length :=
    track17_in_range img1 hspt1 hdlen1 dirSec (by omega) (by omega)
  have hflds2 := writeSector_fields hw2 hin2
  have hoffeq2 : ∀ t s, getSectorOffset img2 t s = getSectorOffset img1 t s :=
    fun _ _ => rfl
  have hspt2 : img2.header.sectorsPerTrack = 18 := hspt1
  have hdlen2 : img2.data.length = img2.header.headerSize + 161280 := by
    rw [hflds2.2.2.2]
    exact hdlen1
  have hfat2 : img2.fat = img1.fat := rfl
  -- FAT bytes are all < 256 after the granule writes
  have hallfat : img1.fat.all (fun v => decide (v < 256)) = true := by
    rw [List.all_eq_true]
    intro v hv
    obtain ⟨x, hx⟩ := List.get_of_mem hv
    have hxget : img1.fat.get? x = some v := by
      rw [List.get?_eq_get x.isLt, hx]
    by_cases hxgs : ∀ g ∈ g0 :: gs', (x : Nat) ≠ g
    · rw [hfatfr1 x hxgs] at hxget
      have : v ∈ img.fat := List.get?_mem hxget
      simpa using hfatbytes v this
    · push_neg at hxgs
      obtain ⟨g, hgmem, hgx⟩ := hxgs
      obtain ⟨v2, hv2, hv2b⟩ :=
        chainPtrs_values img1.fat fileData.length (g0 :: gs') 0 hcptr1 hbounds g hgmem
      rw [hgx] at hxget
      rw [hxget] at hv2
      injection hv2 with hv2e
      simpa [← hv2e] using hv2b
  -- the FAT-sector write
  set q : List Nat := img1.fat ++ (readSector img2 17 2).drop 68 with hqd
  have ht17same2 : ∀ s, 1 ≤ s → s ≤ 18 → ¬ s = dirSec →
      readSector img2 17 s = readSector img1 17 s := by
    intro s h1 h2 hne
    apply readSector_writeSector_other hw2 hin2
    exact track17_sectors_disjoint img1 hspt1 s dirSec h1 (by omega) hne
  have hqlen : q.length = 256 := by
    rw [hqd, List.length_append, List.length_drop, hfatlen1]
    have : (readSector img2 17 2).length = 256 := by
      rw [ht17same2 2 (by omega) (by omega) (by omega)]
      exact ht17len1 2 (by omega) (by omega)
    omega
  have hw3 := writeSector_some img2 17 2 q hqlen
  set img3 : DSKImage :=
    { img2 with data := img2.data.take (getSectorOffset img2 17 2) ++ q ++
        img2.data.drop (getSectorOffset img2 17 2 + 256) } with himg3d
  have hin3 : getSectorOffset img2 17 2 + 256 ≤ img2.data.length := by
    exact track17_in_range img2 hspt2 hdlen2 2 (by omega) (by omega)
  have hflds3 := writeSector_fields hw3 hin3
  have hspt3 : img3.header.sectorsPerTrack = 18 := hspt2
  have hdlen3 : img3.data.length = img3.header.headerSize + 161280 := by
    rw [hflds3.2.2.2]
    exact hdlen2
  have hfat3 : img3.fat = img1.fat := rfl
  have ht17same3 : ∀ s, 1 ≤ s → s ≤ 18 → ¬ s = 2 →
      readSector img3 17 s = readSector img2 17 s := by
    intro s h1 h2 hne
    apply readSector_writeSector_other hw3 hin3
    exact track17_sectors_disjoint img2 hspt2 s 2 h1 (by omega) hne
  -- directory re-read succeeds
  obtain ⟨dir, hdir⟩ := readDirSectors_some img3 (List.range' 3 9)
    (fun sec hsec => by
      have hrange := List.mem_range'_1.mp hsec
      exact track17_read_length img3 hspt3 hdlen3 sec (by omega) (by omega))
  have hAlen : ((readSector img 17 dirSec).take dirOff).length = dirOff := by
    rw [List.length_take, ht17len dirSec (by omega) (by omega)]
    omega
  have hR3 : readSector img3 17 dirSec =
      (readSector img 17 dirSec).take dirOff ++ entryData ++
        (readSector img 17 dirSec).drop (dirOff + 32) := by
    rw [ht17same3 dirSec (by omega) (by omega) (by omega),
      readSector_writeSector_self hw2 hin2, hpd,
      ht17same1 dirSec (by omega) (by omega)]
  refine ⟨{ img3 with directory := dir }, g0, gs', ?_, hgs, hlen_cons, hsorted,
    hbounds, ?_, ?_, ?_, ?_, ?_, ?_, ?_, ?_, ?_, ?_, ?_⟩
  -- 1: the run itself
  · show uploadFromPc img fileData (some nm) pcB ft af = _
    unfold uploadFromPc
    dsimp only
    rw [if_neg hnm]
    rw [hgs]
    rw [if_neg (by rw [List.length_cons] at hlen_cons ⊢; omega)]
    rw [hslot]
    dsimp only
    rw [hwg]
    dsimp only
    rw [if_neg (not_not_intro (by
      rw [List.all_eq_true]
      intro c hc
      exact decide_eq_true (hn8ascii c hc).2))]
    rw [if_neg (not_not_intro (by
      rw [List.all_eq_true]
      intro c hc
      exact decide_eq_true (he3ascii c hc).2))]
    rw [if_neg (by omega), if_neg (by omega)]
    rw [show (if fileData.length % 256 = 0 ∧ 0 < fileData.length then 256
      else fileData.length % 256) = lsb from rfl]
    rw [hw2]
    dsimp only
    rw [if_neg (not_not_intro hallfat)]
    rw [hw3]
    dsimp only
    unfold readDirectory
    rw [hdir]
  -- 5: header
  · show img2.header = img.header
    exact hh1
  -- 6: data length
  · show img3.data.length = img.data.length
    rw [hflds3.2.2.2, hflds2.2.2.2, hl1]
  -- 7: fat length
  · show img1.fat.length = 68
    exact hfatlen1
  -- 8: chainPtrs
  · exact hcptr1
  -- 9: fat frame
  · intro x hx
    show img1.fat.get? x = img.fat.get? x
    exact hfatfr1 x hx
  -- 10: granule content reads
  · intro idx g hidx j hj
    have hgmem : g ∈ g0 :: gs' := by
      have := List.get?_mem hidx
      exact this
    have hrd3 : readSector img3 (granuleToTrackSector g).1
        ((granuleToTrackSector g).2 + j) =
        readSector img2 (granuleToTrackSector g).1
          ((granuleToTrackSector g).2 + j) := by
      apply readSector_writeSector_other hw3 hin3
      rcases track17_granule_disjoint img2 hspt2 2 g j (by omega) (by omega)
        (hbounds g hgmem) (by
          have : stwOf len (offAt len 0 idx) ≤ 9 :=
            Nat.min_le_left _ _
          omega) with h | h
      · exact Or.inr h
      · exact Or.inl h
    have hrd2 : readSector img2 (granuleToTrackSector g).1
        ((granuleToTrackSector g).2 + j) =
        readSector img1 (granuleToTrackSector g).1
          ((granuleToTrackSector g).2 + j) := by
      apply readSector_writeSector_other hw2 hin2
      rcases track17_granule_disjoint img1 hspt1 dirSec g j (by omega) (by omega)
        (hbounds g hgmem) (by
          have : stwOf len (offAt len 0 idx) ≤ 9 :=
            Nat.min_le_left _ _
          omega) with h | h
      · exact Or.inr h
      · exact Or.inl h
    show readSector img3 _ _ = _
    rw [hrd3, hrd2]
    exact hct1 idx g hidx j hj
  -- 11: membership of the new entry in the refreshed directory
  · have hlen3 : (readSector img3 17 dirSec).length = 256 :=
      track17_read_length img3 hspt3 hdlen3 dirSec (by omega) (by omega)
    obtain ⟨es2, hscan⟩ := scanSlots_some (readSector img3 17 dirSec) (List.range 8)
      (fun j hj => by
        rw [hlen3]
        have : j < 8 := List.mem_range.mp hj
        omega)
    have hslotbytes : ((readSector img3 17 dirSec).drop dirOff).take 32 = entryData := by
      rw [hR3, dropTake_append_mid _ entryData _ _ 32 hAlen
        (by rw [hentrylen])]
      exact List.take_of_length_le (le_of_eq hentrylen)
    rw [hoffval] at hslotbytes
    obtain ⟨c, cs, hn8⟩ : ∃ c cs, name8 = c :: cs := by
      cases hx : name8 with
      | nil => rw [hx] at hn8len; simp at hn8len
      | cons c cs => exact ⟨c, cs, rfl⟩
    have hc := hn8ascii c (by rw [hn8]; exact List.mem_cons_self c cs)
    have hslot2 : ((readSector img3 17 dirSec).drop (i * 32)).take 32 =
        c :: (cs ++ ext3 ++ [ft, af, g0, lsb / 256, lsb % 256] ++
          List.replicate 16 255) := by
      rw [hslotbytes, hentryd, hn8]
      rfl
    have harg : c :: (cs ++ ext3 ++ [ft, af, g0, lsb / 256, lsb % 256] ++
        List.replicate 16 255) =
        name8 ++ ext3 ++ [ft, af, g0, lsb / 256, lsb % 256] ++
          List.replicate 16 255 := by
      rw [hn8]
      rfl
    have hparse : parseDirectoryEntry (c :: (cs ++ ext3 ++
        [ft, af, g0, lsb / 256, lsb % 256] ++ List.replicate 16 255)) =
        some ⟨pyRstrip name8, pyRstrip ext3, ft, af, g0, lsb⟩ := by
      rw [harg]
      exact parse_built_entry name8 ext3 ft af g0 lsb hn8len he3len
        (by have := hbounds g0 (List.mem_cons_self g0 gs'); omega)
        (by omega)
        (fun ch hch => (hn8ascii ch hch).2)
        (fun ch hch => (he3ascii ch hch).2)
    have hemem : (⟨pyRstrip name8, pyRstrip ext3, ft, af, g0, lsb⟩ :
        DirectoryEntry) ∈ es2 :=
      scanSlots_mem (readSector img3 17 dirSec) (List.range 8) es2 i c _ _
        hscan (List.mem_range.mpr hi8) hslot2 (by omega) (by omega) hparse
    show (⟨pyRstrip name8, pyRstrip ext3, ft, af, g0, lsb⟩ :
        DirectoryEntry) ∈ dir
    exact readDirSectors_mem img3 (List.range' 3 9) dir es2 dirSec _
      hdir hsecmem hscan hemem
  -- 12: the stored name-and-extension bytes
  · show ((readSector img3 17 dirSec).drop dirOff).take 11 = name8 ++ ext3
    rw [hR3, dropTake_append_mid _ entryData _ _ 11 hAlen
      (by rw [hentrylen]; omega)]
    rw [hentryd, List.append_assoc,
      List.take_append_of_le_length (by simp [hn8len, he3len]),
      List.take_of_length_le (by simp [hn8len, he3len])]
  -- 13: the FAT sector content
  · show readSector img3 17 2 = img1.fat ++ (readSector img 17 2).drop 68
    rw [readSector_writeSector_self hw3 hin3, hqd,
      ht17same2 2 (by omega) (by omega) (by omega),
      ht17same1 2 (by omega) (by omega)]
  -- 14: other directory sectors unchanged
  · intro sec h3 h11 hne
    show readSector img3 17 sec = readSector img 17 sec
    rw [ht17same3 sec (by omega) (by omega) (by omega),
      ht17same2 sec (by omega) (by omega) hne,
      ht17same1 sec (by omega) (by omega)]
  -- 15: the directory sector content
  · show readSector img3 17 dirSec = _
    exact hR3

end CoCoDSK

namespace CoCoDSK

/-- A freshly formatted standard-geometry image: 18 sectors per track, no
JVC header, a fully free FAT and an empty directory; every byte of the
161280-byte buffer is 0xFF. -/
def stdImg : DSKImage :=
  { header := {}, data := List.replicate 161280 255,
    fat := List.replicate 68 255, directory := [] }

/-- A degenerate mounted image whose JVC header reports 0 sectors per
track (so all tracks collapse onto the first 256-byte stripe); its small
buffer keeps concrete evaluation cheap while exercising the same code
paths. -/
def c9Img : DSKImage :=
  { header := { sectorsPerTrack := 0 }, data := List.replicate 2816 255,
    fat := List.replicate 68 255, directory := [] }

/-- An image mounted from a buffer whose FAT sector is all zero: no
granule is free although the directory holds no file. -/
def c2Img : DSKImage :=
  { header := {}, data := [], fat := List.replicate 68 0, directory := [] }

/-- The raw image buffer of an upload result (unchanged original on
error). -/
def resultFat : UploadResult → List Nat
  | .ok s => s.fat
  | .err _ s => s.fat

/-- The cached directory of an upload result. -/
def resultDir : UploadResult → List DirectoryEntry
  | .ok s => s.directory
  | .err _ s => s.directory

/-- Whether `upload_from_pc` returned `True`. -/
def isOk : UploadResult → Bool
  | .ok _ => true
  | .err _ _ => false

/-- Extract the first directory entry of a successful upload's image. -/
def extractFirst : UploadResult → Option (List Nat)
  | .ok s =>
    match s.directory with
    | e :: _ => extractFile s e
    | [] => none
  | .err _ _ => none

theorem stdImg_dlen : stdImg.data.length = stdImg.header.headerSize + 161280 := by
  show (List.replicate 161280 255).length = 0 + 161280
  rw [List.length_replicate]

theorem stdImg_read17 (s : Nat) (hs1 : 1 ≤ s) (hs2 : s ≤ 18) :
    readSector stdImg 17 s = List.replicate 256 255 := by
  have hoff : getSectorOffset stdImg 17 s = (305 + s) * 256 := by
    unfold getSectorOffset
    show 0 + (17 * 18 + (s - 1)) * 256 = _
    omega
  show (stdImg.data.drop (getSectorOffset stdImg 17 s)).take 256 = _
  rw [hoff]
  show ((List.replicate 161280 255).drop ((305 + s) * 256)).take 256 = _
  rw [List.drop_replicate, List.take_replicate]
  congr 1
  omega

theorem stdImg_slot : findFreeDirectorySlot stdImg (List.range' 3 9) = some (some (3, 0)) := by
  have h3 : readSector stdImg 17 3 = List.replicate 256 255 :=
    stdImg_read17 3 (by omega) (by omega)
  rw [show List.range' 3 9 = 3 :: List.range' 4 8 from rfl]
  unfold findFreeDirectorySlot
  rw [h3]
  rfl

/-- Every granule index the free scan collects had FAT byte 0xFF. -/
theorem ffgGo_free : ∀ (fatL : List Nat) (i need x : Nat),
    x ∈ findFreeGranulesGo fatL i need → fatL.get? (x - i) = some 255 := by
  intro fatL
  induction fatL with
  | nil => intro i need x hx; simp [findFreeGranulesGo] at hx
  | cons e rest ih =>
    intro i need x hx
    unfold findFreeGranulesGo at hx
    by_cases he : e = 255
    · rw [if_pos he] at hx
      by_cases hn : need ≤ 1
      · rw [if_pos hn] at hx
        simp at hx
        subst hx
        rw [Nat.sub_self]
        show some e = some 255
        rw [he]
      · rw [if_neg hn] at hx
        rcases List.mem_cons.mp hx with h | h
        · subst h
          rw [Nat.sub_self]
          show some e = some 255
          rw [he]
        · have hx2 := ih (i + 1) (need - 1) x h
          have hord := ffgGo_bounds rest (i + 1) (need - 1) x h
          have hsplit : x - i = (x - (i + 1)) + 1 := by omega
          rw [hsplit]
          exact hx2
    · rw [if_neg he] at hx
      have hx2 := ih (i + 1) need x hx
      have hord := ffgGo_bounds rest (i + 1) need x hx
      have hsplit : x - i = (x - (i + 1)) + 1 := by omega
      rw [hsplit]
      exact hx2

theorem findFreeGranules_free (fat : List Nat) (n x : Nat)
    (hx : x ∈ findFreeGranules fat n) : fat.get? x = some 255 := by
  have h := ffgGo_free fat 0 n x hx
  rwa [Nat.sub_zero] at h

/-- None of the FAT bytes along a freshly written chain is the free
marker 0xFF. -/
theorem chainPtrs_not_free (fat : List Nat) (len : Nat) :
    ∀ (gs : List Nat) (off : Nat), chainPtrs fat len gs off →
      (∀ g ∈ gs, g < 68) →
      ∀ g ∈ gs, ∃ v, fat.get? g = some v ∧ ¬ v = 255 := by
  intro gs
  induction gs with
  | nil => intro off _ _ g hg; simp at hg
  | cons g1 rest ih =>
    intro off hptr hbound g hg
    cases rest with
    | nil =>
      have hv : fat.get? g1 = some (Nat.lor 192 (stwOf len off)) := hptr
      have hstw : stwOf len off ≤ 9 := Nat.min_le_left _ _
      rw [lor192_eq _ hstw] at hv
      rcases List.mem_cons.mp hg with h | h
      · subst h; exact ⟨_, hv, by omega⟩
      · simp at h
    | cons g2 rest2 =>
      obtain ⟨hv, hrest⟩ := hptr
      rcases List.mem_cons.mp hg with h | h
      · subst h
        refine ⟨g2, hv, ?_⟩
        have : g2 < 68 := hbound g2 (by simp)
        omega
      · exact ih _ hrest (fun x hx => hbound x (by simp [hx])) g h

/-- Overwriting a free FAT byte with a non-free value lowers the free
count by one. -/
theorem freeCount_set_unfree : ∀ (A : List Nat) (g v : Nat),
    A.get? g = some 255 → ¬ v = 255 →
    freeCount (A.set g v) + 1 = freeCount A := by
  intro A
  induction A with
  | nil => intro g v h _; simp at h
  | cons a as ih =>
    intro g v hget hv
    cases g with
    | zero =>
      injection hget with h
      subst h
      show freeCount (v :: as) + 1 = freeCount (255 :: as)
      unfold freeCount
      rw [List.countP_cons, List.countP_cons]
      rw [if_neg (by simp [hv]), if_pos (by simp)]
    | succ g2 =>
      have hrec := ih g2 v hget hv
      show freeCount (a :: as.set g2 v) + 1 = freeCount (a :: as)
      unfold freeCount at hrec ⊢
      rw [List.countP_cons, List.countP_cons]
      omega

/-- Counting free FAT bytes through a pointwise change: if `B` agrees
with `A` off a duplicate-free set `S` of positions, holds a non-free
value on `S`, and `A` was free on `S`, then the free count dropped by
exactly `S.length`. -/
theorem freeCount_of_pointwise : ∀ (S A B : List Nat),
    List.Pairwise (fun a b => ¬ a = b) S →
    (∀ g ∈ S, A.get? g = some 255) →
    (∀ g ∈ S, ∃ v, B.get? g = some v ∧ ¬ v = 255) →
    (∀ x, (∀ g ∈ S, ¬ x = g) → B.get? x = A.get? x) →
    freeCount B + S.length = freeCount A := by
  intro S
  induction S with
  | nil =>
    intro A B _ _ _ hframe
    have hBA : B = A := List.ext_get? (fun n => hframe n (by simp))
    rw [hBA, List.length_nil]
    omega
  | cons g S2 ih =>
    intro A B hpw hfreeA hnew hframe
    obtain ⟨v, hv, hv255⟩ := hnew g (List.mem_cons_self g S2)
    have hgA : A.get? g = some 255 := hfreeA g (List.mem_cons_self g S2)
    have hpw2 := List.pairwise_cons.mp hpw
    have hrec := ih (A.set g v) B hpw2.2
      (fun g2 hg2 => by
        rw [List.get?_set_ne _ _ (hpw2.1 g2 hg2)]
        exact hfreeA g2 (by simp [hg2]))
      (fun g2 hg2 => hnew g2 (by simp [hg2]))
      (fun x hx => by
        by_cases hxg : x = g
        · subst hxg
          rw [hv, List.get?_set_eq, hgA]
          rfl
        · rw [List.get?_set_ne _ _ (fun he => hxg he.symm)]
          exact hframe x (by
            intro g2 hg2
            rcases List.mem_cons.mp hg2 with h | h
            · subst h; exact hxg
            · exact hx g2 h))
    have hstep := freeCount_set_unfree A g v hgA hv255
    rw [List.length_cons]
    omega

end CoCoDSK

namespace CoCoDSK

/-- C2: when `upload_from_pc` fails with `OutOfSpace` (fewer free
granules than needed) or `DirectoryFull` (no free 32-byte slot), the
returned state is the untouched original: buffer, FAT and directory are
unchanged, because both checks run before any sector is written. -/
theorem uploadFromPc_err_atomic (img s' : DSKImage) (fileData pcB : List Nat)
    (dskFilename : Option (List Nat)) (ft af : Nat) (e : UploadErr)
    (hrun : uploadFromPc img fileData dskFilename pcB ft af = .err e s')
    (he : e = .outOfSpace ∨ e = .dirFull) :
    s'.data = img.data ∧ s'.fat = img.fat ∧ s'.directory = img.directory := by
  unfold uploadFromPc at hrun
  dsimp only at hrun
  repeat' split at hrun
  all_goals first
    | exact UploadResult.noConfusion hrun
    | (injection hrun with h1 h2; first
        | (subst h2; exact ⟨rfl, rfl, rfl⟩)
        | (rcases he with he2 | he2 <;> rw [← h1] at he2 <;>
            exact UploadErr.noConfusion he2))

/-- C2 witness: a volume with an all-used FAT rejects a 1-byte insert
with `OutOfSpace` and is returned unchanged. -/
theorem uploadFromPc_err_atomic_witness :
    c2Img.data = c2Img.data ∧ c2Img.fat = c2Img.fat ∧
      c2Img.directory = c2Img.directory :=
  uploadFromPc_err_atomic c2Img c2Img [1] [] (some [65]) 0 0 .outOfSpace
    (by decide) (Or.inl rfl)

end CoCoDSK

namespace CoCoDSK

/-- C9 counterexample: uploading under the caller-supplied name "ab.c"
stores the lowercase bytes 97/98 (and extension 99) verbatim; the
claimed normalization would store the uppercased split, which differs. -/
theorem upload_name_not_uppercased :
    resultDir (uploadFromPc c9Img [] (some [97, 98, 46, 99]) [] 0 0) =
      [⟨[97, 98], [99], 0, 0, 0, 0⟩] ∧
    ¬ ([97, 98] : List Nat) = (rsplitDot [97, 98, 46, 99]).1.map pyUpperChar := by
  decide

/-- C9 (amended): for a caller-supplied nonempty name, `upload_from_pc`
splits on the last dot, space-pads the stem to 8 bytes and the extension
to 3, and stores those bytes in the directory slot without uppercasing;
the refreshed directory holds the right-stripped parts as filename and
extension. -/
theorem upload_name_normalization (img : DSKImage) (fileData nm pcB : List Nat)
    (ft af dirSec dirOff : Nat)
    (hspt : img.header.sectorsPerTrack = 18)
    (hdlen : img.data.length = img.header.headerSize + 161280)
    (hfatlen : img.fat.length = 68)
    (hfatbytes : ∀ v ∈ img.fat, v < 256)
    (hnm : ¬ nm = [])
    (hascii : ∀ c ∈ nm, 0 < c ∧ c < 128)
    (hft : ft < 256) (haf : af < 256)
    (hfree : max 1 ((fileData.length + 2304 - 1) / 2304) ≤ freeCount img.fat)
    (hslot : findFreeDirectorySlot img (List.range' 3 9) = some (some (dirSec, dirOff))) :
    ∃ s' g0, uploadFromPc img fileData (some nm) pcB ft af = .ok s' ∧
      ((readSector s' 17 dirSec).drop dirOff).take 11 =
        ljustPad (rsplitDot nm).1 8 ++ ljustPad (rsplitDot nm).2 3 ∧
      (⟨pyRstrip (ljustPad (rsplitDot nm).1 8), pyRstrip (ljustPad (rsplitDot nm).2 3),
          ft, af, g0, uploadLsb fileData⟩ : DirectoryEntry) ∈ s'.directory := by
  obtain ⟨s', g0, gs', hrun, _, _, _, _, _, _, _, _, _, _, hmem, hslotb, _, _, _⟩ :=
    uploadFromPc_ok img fileData nm pcB ft af dirSec dirOff hspt hdlen hfatlen
      hfatbytes hnm hascii hft haf hfree hslot
  exact ⟨s', g0, hrun, hslotb, hmem⟩

/-- C9 witness: inserting one byte on a freshly formatted volume under
the name "ab.c" succeeds with the padded lowercase name bytes stored. -/
theorem upload_name_normalization_witness :
    ∃ s' g0, uploadFromPc stdImg [7] (some [97, 98, 46, 99]) [] 0 0 = .ok s' ∧
      ((readSector s' 17 3).drop 0).take 11 =
        ljustPad (rsplitDot [97, 98, 46, 99]).1 8 ++
          ljustPad (rsplitDot [97, 98, 46, 99]).2 3 ∧
      (⟨pyRstrip (ljustPad (rsplitDot [97, 98, 46, 99]).1 8),
          pyRstrip (ljustPad (rsplitDot [97, 98, 46, 99]).2 3),
          0, 0, g0, uploadLsb [7]⟩ : DirectoryEntry) ∈ s'.directory :=
  upload_name_normalization stdImg [7] [97, 98, 46, 99] [] 0 0 3 0 rfl
    stdImg_dlen (by decide) (by decide) (by decide) (by decide) (by decide)
    (by decide) (by decide) stdImg_slot

end CoCoDSK

namespace CoCoDSK

/-- C4 counterexample: on a fully free volume, inserting a 0-byte file
succeeds yet granule 0's FAT byte changes from the free marker 0xFF to
the terminal marker 0xC0 — one granule is allocated, not zero. -/
theorem upload_zero_bytes_allocates :
    c9Img.fat.get? 0 = some 255 ∧
    isOk (uploadFromPc c9Img [] (some [65]) [] 0 0) = true ∧
    (resultFat (uploadFromPc c9Img [] (some [65]) [] 0 0)).get? 0 = some 192 := by
  decide

/-- C4 (amended): inserting a 0-byte file on a volume with a free
granule and a free slot allocates exactly one granule — the first free
one — and writes the bare terminal marker 0xC0 into its FAT byte
(previously 0xFF); every other FAT byte is unchanged, the entry's
last_sector_bytes field is 0, and an active directory entry is created. -/
theorem upload_zero_bytes_one_granule (img : DSKImage) (nm pcB : List Nat)
    (ft af dirSec dirOff : Nat)
    (hspt : img.header.sectorsPerTrack = 18)
    (hdlen : img.data.length = img.header.headerSize + 161280)
    (hfatlen : img.fat.length = 68)
    (hfatbytes : ∀ v ∈ img.fat, v < 256)
    (hnm : ¬ nm = [])
    (hascii : ∀ c ∈ nm, 0 < c ∧ c < 128)
    (hft : ft < 256) (haf : af < 256)
    (hfree1 : 1 ≤ freeCount img.fat)
    (hslot : findFreeDirectorySlot img (List.range' 3 9) = some (some (dirSec, dirOff))) :
    ∃ s' g0, uploadFromPc img [] (some nm) pcB ft af = .ok s' ∧
      findFreeGranules img.fat 0 = [g0] ∧
      img.fat.get? g0 = some 255 ∧
      s'.fat.get? g0 = some 192 ∧
      (∀ x, ¬ x = g0 → s'.fat.get? x = img.fat.get? x) ∧
      (⟨pyRstrip (ljustPad (rsplitDot nm).1 8), pyRstrip (ljustPad (rsplitDot nm).2 3),
          ft, af, g0, 0⟩ : DirectoryEntry) ∈ s'.directory := by
  obtain ⟨s', g0, gs', hrun, hgs, hlen, _, _, _, _, _, hchain, hframe, _, hmem, _, _, _, _⟩ :=
    uploadFromPc_ok img [] nm pcB ft af dirSec dirOff hspt hdlen hfatlen
      hfatbytes hnm hascii hft haf (by simp only [List.length_nil]; omega) hslot
  have h0 : max 1 ((List.length ([] : List Nat) + 2304 - 1) / 2304) = 1 := by decide
  have hnil : gs' = [] := by
    cases gs' with
    | nil => rfl
    | cons a b =>
      rw [h0] at hlen
      simp only [List.length_cons] at hlen
      omega
  subst hnil
  have hg192 : s'.fat.get? g0 = some 192 := by
    have hterm : s'.fat.get? g0 =
        some (Nat.lor 192 (stwOf (List.length ([] : List Nat)) 0)) := hchain
    rw [show Nat.lor 192 (stwOf (List.length ([] : List Nat)) 0) = 192 from by decide]
      at hterm
    exact hterm
  refine ⟨s', g0, hrun, hgs, ?_, hg192, ?_, ?_⟩
  · exact findFreeGranules_free img.fat 0 g0 (hgs ▸ List.mem_cons_self g0 [])
  · intro x hx
    apply hframe
    intro g hg
    have : g = g0 := by
      rcases List.mem_cons.mp hg with h | h
      · exact h
      · simp at h
    rw [this]
    exact hx
  · exact (show uploadLsb ([] : List Nat) = 0 from rfl) ▸ hmem

/-- C4 witness: a 0-byte insert on a freshly formatted volume allocates
granule 0 with FAT byte 0xC0 and stores a zero last-sector-bytes entry. -/
theorem upload_zero_bytes_one_granule_witness :
    ∃ s' g0, uploadFromPc stdImg [] (some [65]) [] 0 0 = .ok s' ∧
      findFreeGranules stdImg.fat 0 = [g0] ∧
      stdImg.fat.get? g0 = some 255 ∧
      s'.fat.get? g0 = some 192 ∧
      (∀ x, ¬ x = g0 → s'.fat.get? x = stdImg.fat.get? x) ∧
      (⟨pyRstrip (ljustPad (rsplitDot [65]).1 8), pyRstrip (ljustPad (rsplitDot [65]).2 3),
          0, 0, g0, 0⟩ : DirectoryEntry) ∈ s'.directory :=
  upload_zero_bytes_one_granule stdImg [65] [] 0 0 3 0 rfl stdImg_dlen
    (by decide) (by decide) (by decide) (by decide) (by decide) (by decide)
    (by decide) stdImg_slot

end CoCoDSK

namespace CoCoDSK

/-- C5 counterexample: the global free-count formula fails twice over —
for the empty operation sequence on a mounted image whose FAT has no
free bytes although no file is present (free count 0, formula demands
68), and for a single successful 0-byte insert on a fully free volume
(one file of size 0 present, formula demands 68 free granules, actual
free count 67). -/
theorem fat_freeCount_formula_fails :
    (c2Img.directory = [] ∧ ¬ freeCount c2Img.fat = 68) ∧
    (freeCount c9Img.fat = 68 ∧
      resultDir (uploadFromPc c9Img [] (some [65]) [] 0 0) =
        [⟨[65], [], 0, 0, 0, 0⟩] ∧
      freeCount (resultFat (uploadFromPc c9Img [] (some [65]) [] 0 0)) = 67) := by
  decide

/-- C5 (amended): per-insert free-count accounting — a successful insert
of an n-byte file removes exactly max 1 ⌈n/2304⌉ granules from the free
pool, which equals the claimed ⌈n/2304⌉ precisely when n ≥ 1 (a 0-byte
insert still consumes one granule, and an image whose initial FAT
free-count disagrees with its directory contents already violates the
global formula). -/
theorem upload_freeCount_delta (img : DSKImage) (fileData nm pcB : List Nat)
    (ft af dirSec dirOff : Nat)
    (hspt : img.header.sectorsPerTrack = 18)
    (hdlen : img.data.length = img.header.headerSize + 161280)
    (hfatlen : img.fat.length = 68)
    (hfatbytes : ∀ v ∈ img.fat, v < 256)
    (hnm : ¬ nm = [])
    (hascii : ∀ c ∈ nm, 0 < c ∧ c < 128)
    (hft : ft < 256) (haf : af < 256)
    (hfree : max 1 ((fileData.length + 2304 - 1) / 2304) ≤ freeCount img.fat)
    (hslot : findFreeDirectorySlot img (List.range' 3 9) = some (some (dirSec, dirOff))) :
    ∃ s', uploadFromPc img fileData (some nm) pcB ft af = .ok s' ∧
      freeCount s'.fat + max 1 ((fileData.length + 2304 - 1) / 2304) =
        freeCount img.fat ∧
      (1 ≤ fileData.length →
        freeCount s'.fat + (fileData.length + 2304 - 1) / 2304 = freeCount img.fat) := by
  obtain ⟨s', g0, gs', hrun, hgs, hlen, hsort, hbounds, _, _, _, hchain, hframe, _,
    _, _, _, _, _⟩ :=
    uploadFromPc_ok img fileData nm pcB ft af dirSec dirOff hspt hdlen hfatlen
      hfatbytes hnm hascii hft haf hfree hslot
  have hcount := freeCount_of_pointwise (g0 :: gs') img.fat s'.fat
    (hsort.imp (fun h => Nat.ne_of_lt h))
    (fun g hg => findFreeGranules_free img.fat _ g (hgs ▸ hg))
    (fun g hg => chainPtrs_not_free s'.fat fileData.length (g0 :: gs') 0 hchain
      hbounds g hg)
    hframe
  rw [hlen] at hcount
  exact ⟨s', hrun, hcount, fun h1 => by omega⟩

/-- C5 witness: inserting one byte on a freshly formatted volume drops
the free count from 68 to 67 = 68 − ⌈1/2304⌉. -/
theorem upload_freeCount_delta_witness :
    ∃ s', uploadFromPc stdImg [7] (some [65]) [] 0 0 = .ok s' ∧
      freeCount s'.fat + max 1 ((List.length [7] + 2304 - 1) / 2304) =
        freeCount stdImg.fat ∧
      (1 ≤ List.length [7] →
        freeCount s'.fat + (List.length [7] + 2304 - 1) / 2304 = freeCount stdImg.fat) :=
  upload_freeCount_delta stdImg [7] [65] [] 0 0 3 0 rfl stdImg_dlen
    (by decide) (by decide) (by decide) (by decide) (by decide) (by decide)
    (by decide) stdImg_slot

end CoCoDSK

namespace CoCoDSK

/-- C1 counterexample: on a fully free volume the 0-byte insert
succeeds, but extracting the file's directory entry does not return the
empty byte sequence — the bare 0xC0 terminal marker makes the extractor
read 9 whole sectors and the zero last_sector_bytes field skips the
trim, so the round-trip fails for b = []. -/
theorem upload_extract_empty_fails :
    freeCount c9Img.fat = 68 ∧
    isOk (uploadFromPc c9Img [] (some [65]) [] 0 0) = true ∧
    ¬ extractFirst (uploadFromPc c9Img [] (some [65]) [] 0 0) = some [] := by
  decide

/-- C1 (amended): insert/extract round-trip for nonempty data — on a
standard-geometry volume with enough free granules and a free directory
slot, inserting a nonempty byte sequence b under a caller-supplied name
creates a directory entry whose extraction returns exactly b. -/
theorem insert_extract_roundtrip (img : DSKImage) (fileData nm pcB : List Nat)
    (ft af dirSec dirOff : Nat)
    (hspt : img.header.sectorsPerTrack = 18)
    (hdlen : img.data.length = img.header.headerSize + 161280)
    (hfatlen : img.fat.length = 68)
    (hfatbytes : ∀ v ∈ img.fat, v < 256)
    (hnm : ¬ nm = [])
    (hascii : ∀ c ∈ nm, 0 < c ∧ c < 128)
    (hft : ft < 256) (haf : af < 256)
    (hfree : max 1 ((fileData.length + 2304 - 1) / 2304) ≤ freeCount img.fat)
    (hslot : findFreeDirectorySlot img (List.range' 3 9) = some (some (dirSec, dirOff)))
    (hne : ¬ fileData = []) :
    ∃ s' e, uploadFromPc img fileData (some nm) pcB ft af = .ok s' ∧
      e ∈ s'.directory ∧
      e.filename = pyRstrip (ljustPad (rsplitDot nm).1 8) ∧
      e.extension = pyRstrip (ljustPad (rsplitDot nm).2 3) ∧
      extractFile s' e = some fileData := by
  obtain ⟨s', g0, gs', hrun, hgs, hlen, hsort, hbounds, _, _, hfl, hchain, _,
    hcontent, hmem, _, _, _, _⟩ :=
    uploadFromPc_ok img fileData nm pcB ft af dirSec dirOff hspt hdlen hfatlen
      hfatbytes hnm hascii hft haf hfree hslot
  have hlenpos : 0 < fileData.length := List.length_pos.mpr hne
  refine ⟨s', ⟨pyRstrip (ljustPad (rsplitDot nm).1 8),
    pyRstrip (ljustPad (rsplitDot nm).2 3), ft, af, g0, uploadLsb fileData⟩,
    hrun, hmem, rfl, rfl, ?_⟩
  have hfc68 : freeCount img.fat ≤ 68 := by
    have h : freeCount img.fat ≤ img.fat.length := List.countP_le_length _
    omega
  have hfuel : (g0 :: gs').length < 69 := by
    rw [hlen]
    omega
  have hwalk := chainWalk_of_chainPtrs s'.fat fileData.length (g0 :: gs') 0 69
    g0 gs' rfl hfuel hbounds hchain
  unfold extractFile
  dsimp only
  rw [hwalk]
  dsimp only
  rw [fold_expectedChain s' fileData (g0 :: gs') 0 hbounds hlenpos
    (by rw [hlen]; omega) hcontent]
  set S : Nat := (fileData.length - 0 + 255) / 256 with hSd
  have hSa : 1 ≤ S := by rw [hSd]; omega
  have hSb : fileData.length ≤ 256 * S := by rw [hSd]; omega
  have hFD : chunksFrom fileData 0 S =
      fileData ++ List.replicate (256 * S - fileData.length) 0 := by
    rw [chunksFrom_value fileData S 0, List.drop_zero,
      List.take_of_length_le (by omega), Nat.sub_zero]
  rw [hFD]
  have hlsb : 1 ≤ uploadLsb fileData ∧ uploadLsb fileData ≤ 256 ∧
      (S - 1) * 256 + uploadLsb fileData = fileData.length := by
    unfold uploadLsb
    split
    · refine ⟨by omega, by omega, ?_⟩
      omega
    · rename_i hcond
      have h1 : ¬ fileData.length % 256 = 0 := fun h0 => hcond ⟨h0, hlenpos⟩
      refine ⟨by omega, ?_, ?_⟩
      · have := Nat.mod_lt fileData.length (show 0 < 256 by omega)
        omega
      · omega
  obtain ⟨hlsb1, hlsb2, hlsb3⟩ := hlsb
  unfold trimExtract
  rw [if_pos ⟨by omega, by
    rw [List.length_append, List.length_replicate]
    omega⟩]
  dsimp only
  have hN : (fileData ++ List.replicate (256 * S - fileData.length) 0).length =
      256 * S := by
    rw [List.length_append, List.length_replicate]
    omega
  rw [hN]
  have hact : (((256 * S : Nat) : Int) / 256 - 1) * 256 + (uploadLsb fileData : Int) =
      (fileData.length : Int) := by
    omega
  rw [hact]
  rw [if_neg (by omega)]
  rw [Int.toNat_natCast]
  rw [List.take_left]

/-- C1 witness: inserting the single byte 7 on a freshly formatted
volume and extracting the created entry returns [7]. -/
theorem insert_extract_roundtrip_witness :
    ∃ s' e, uploadFromPc stdImg [7] (some [65]) [] 0 0 = .ok s' ∧
      e ∈ s'.directory ∧
      e.filename = pyRstrip (ljustPad (rsplitDot [65]).1 8) ∧
      e.extension = pyRstrip (ljustPad (rsplitDot [65]).2 3) ∧
      extractFile s' e = some [7] :=
  insert_extract_roundtrip stdImg [7] [65] [] 0 0 3 0 rfl stdImg_dlen
    (by decide) (by decide) (by decide) (by decide) (by decide) (by decide)
    (by decide) stdImg_slot (by decide)

end CoCoDSK
